import Mathlib

/-!
# will_to_svg: stroke decoder and vector document model

A shallow embedding of `src/main.cpp` (varint length reader, payload loader,
delta decoder, per-entry decode loop, entry filter, output name, scan and save)
and of `src/simple_svg_1.0.0.hpp` (layout transform, colours, fill, stroke, font,
the shapes with their serialization, offset and copy assignment, the line chart
with its optional values, the document), followed by theorems about them.

Conventions of the embedding
* bytes are natural numbers below 256; `uint64_t` values are naturals reduced
  modulo `2^64`; `int`/`int32_t` values are integers kept in the two's-complement
  range by `wrap32`;
* `double` is a type parameter `F` with its operations collected in
  `DoubleOps F`; integral `double` constants are written `D.ofInt n`;
* an access outside a vector or a repeated field, which C++ leaves undefined,
  is the outcome `Outcome.fault Fault.outOfBounds`;
* loops run on a fuel counter; running out of fuel is the separate outcome
  `Fault.outOfFuel`, and the entry points pass enough fuel for it never to occur;
* code that may throw `std::exception` returns a `Thrown` value.
-/

namespace Will

/-! ## Machine integers -/

/-- The value an `int32_t` holds after storing the integer `x`
(two's-complement wrap-around). -/
def wrap32 (x : Int) : Int := (x + 2147483648) % 4294967296 - 2147483648

/-- The integers an `int32_t` can hold. -/
def fits32 (x : Int) : Prop := -2147483648 ≤ x ∧ x < 2147483648

instance (x : Int) : Decidable (fits32 x) := by unfold fits32; infer_instance

/-- Conversion of an `int` to `uint64_t` (sign extension, i.e. reduction modulo `2^64`). -/
def toUInt64 (x : Int) : Nat := (x % 18446744073709551616).toNat

/-! ## Outcomes -/

/-- Ways in which an execution leaves the defined behaviour of the program. -/
inductive Fault where
  /-- an index outside a `std::vector` or a repeated field was read or written -/
  | outOfBounds
  /-- allocation: `calloc` was asked for a negative `int` converted to `size_t` -/
  | badAlloc
  /-- the fuel of a loop in the embedding ran out (not a behaviour of the program) -/
  | outOfFuel
  deriving DecidableEq, Repr

/-- Result of running a piece of the program. -/
inductive Outcome (α : Type) where
  | ok (a : α)
  | fault (f : Fault)
  deriving DecidableEq, Repr

/-- Sequencing of outcomes: the first fault stops the execution. -/
def Outcome.bind {α β : Type} (x : Outcome α) (f : α → Outcome β) : Outcome β :=
  match x with
  | .ok a => f a
  | .fault e => .fault e

/-- Read of `v[i]` with the bound made explicit. -/
def vecGet {α : Type} (v : List α) (i : Nat) : Outcome α :=
  match v.get? i with
  | some x => .ok x
  | none => .fault .outOfBounds

/-- Write `v[i] = x` with the bound made explicit. -/
def vecSet {α : Type} (v : List α) (i : Nat) (x : α) : Outcome (List α) :=
  if i < v.length then .ok (v.set i x) else .fault .outOfBounds

/-! ## Doubles -/

/-- The operations on `double` the program uses. -/
structure DoubleOps (F : Type) where
  /-- conversion of an integer to `double` -/
  ofInt : Int → F
  add : F → F → F
  sub : F → F → F
  mul : F → F → F
  div : F → F → F
  /-- value of `std::pow(10.0, dp)` for `dp` the `double` of a non-negative integer -/
  pow10 : Nat → F
  /-- comparison `a < b` -/
  lt : F → F → Bool
  /-- output of `ostream << double` with the default format -/
  fmt : F → String

/-! ## simple_svg: points, layout, styles -/

/-- Source `svg::Dimensions`. -/
structure Dimensions (F : Type) where
  width : F
  height : F
  deriving DecidableEq, Repr

/-- Source `svg::Point`. -/
structure Point (F : Type) where
  x : F
  y : F
  deriving DecidableEq, Repr

/-- Source `svg::Layout::Origin`. -/
inductive Origin where
  | TopLeft
  | BottomLeft
  | TopRight
  | BottomRight
  deriving DecidableEq, Repr

/-- Source `svg::Layout`. -/
structure Layout (F : Type) where
  dimensions : Dimensions F
  scale : F
  origin : Origin
  origin_offset : Point F
  deriving DecidableEq, Repr

/-- Constructor `Layout(Dimensions const &dimensions, Origin origin)`: scale 1 and the
default-constructed origin offset `Point()`, which is `(0, 0)`. -/
def Layout.ofDimensions {F : Type} (D : DoubleOps F) (dimensions : Dimensions F)
    (origin : Origin) : Layout F :=
  { dimensions := dimensions, scale := D.ofInt 1, origin := origin,
    origin_offset := ⟨D.ofInt 0, D.ofInt 0⟩ }

/-- Source `svg::translateX`. -/
def translateX {F : Type} (D : DoubleOps F) (x : F) (layout : Layout F) : F :=
  if layout.origin = Origin.BottomRight ∨ layout.origin = Origin.TopRight then
    D.sub layout.dimensions.width (D.mul (D.add x layout.origin_offset.x) layout.scale)
  else
    D.mul (D.add layout.origin_offset.x x) layout.scale

/-- Source `svg::translateY`. -/
def translateY {F : Type} (D : DoubleOps F) (y : F) (layout : Layout F) : F :=
  if layout.origin = Origin.BottomLeft ∨ layout.origin = Origin.BottomRight then
    D.sub layout.dimensions.height (D.mul (D.add y layout.origin_offset.y) layout.scale)
  else
    D.mul (D.add layout.origin_offset.y y) layout.scale

/-- Source `svg::translateScale`. -/
def translateScale {F : Type} (D : DoubleOps F) (dimension : F) (layout : Layout F) : F :=
  D.mul dimension layout.scale

/-- Function `svg::attribute` once the value has been written to the stream as `value`. -/
def attributeStr (attribute_name : String) (value : String) (unit : String) : String :=
  attribute_name ++ "=\"" ++ value ++ unit ++ "\" "

/-- Source `svg::elemStart`. -/
def elemStart (element_name : String) : String := "\t<" ++ element_name ++ " "

/-- Source `svg::elemEnd`. -/
def elemEnd (element_name : String) : String := "</" ++ element_name ++ ">\n"

/-- Source `svg::emptyElemEnd`. -/
def emptyElemEnd : String := "/>\n"

/-- Source `svg::Color::Defaults`. -/
inductive Defaults where
  | Transparent | Aqua | Black | Blue | Brown | Cyan | Fuchsia | Green | Lime
  | Magenta | Orange | Purple | Red | Silver | White | Yellow
  deriving DecidableEq, Repr

/-- Source `svg::Color`. -/
structure Color where
  transparent : Bool
  red : Int
  green : Int
  blue : Int
  deriving DecidableEq, Repr

/-- Source `Color::Color(Defaults color)`. -/
def Color.ofDefaults : Defaults → Color
  | .Aqua => ⟨false, 0, 255, 255⟩
  | .Black => ⟨false, 0, 0, 0⟩
  | .Blue => ⟨false, 0, 0, 255⟩
  | .Brown => ⟨false, 165, 42, 42⟩
  | .Cyan => ⟨false, 0, 255, 255⟩
  | .Fuchsia => ⟨false, 255, 0, 255⟩
  | .Green => ⟨false, 0, 128, 0⟩
  | .Lime => ⟨false, 0, 255, 0⟩
  | .Magenta => ⟨false, 255, 0, 255⟩
  | .Orange => ⟨false, 255, 165, 0⟩
  | .Purple => ⟨false, 128, 0, 128⟩
  | .Red => ⟨false, 255, 0, 0⟩
  | .Silver => ⟨false, 192, 192, 192⟩
  | .White => ⟨false, 255, 255, 255⟩
  | .Yellow => ⟨false, 255, 255, 0⟩
  | .Transparent => ⟨true, 0, 0, 0⟩

/-- Source `Color::toString`. -/
def Color.toString (c : Color) : String :=
  if c.transparent then "transparent"
  else "rgb(" ++ ToString.toString c.red ++ "," ++ ToString.toString c.green ++ ","
    ++ ToString.toString c.blue ++ ")"

/-- Source `svg::Fill`. -/
structure Fill where
  color : Color
  deriving DecidableEq, Repr

/-- Source `Fill::toString`. -/
def Fill.toString (f : Fill) : String := attributeStr "fill" f.color.toString ""

/-- Source `svg::Stroke`. -/
structure Stroke (F : Type) where
  width : F
  color : Color
  deriving DecidableEq, Repr

/-- Source `Stroke::toString`. -/
def Stroke.toString {F : Type} (D : DoubleOps F) (s : Stroke F) (layout : Layout F) : String :=
  if D.lt s.width (D.ofInt 0) then ""
  else attributeStr "stroke-width" (D.fmt (translateScale D s.width layout)) ""
    ++ attributeStr "stroke" s.color.toString ""

/-- Source `svg::Polyline` (the `fill` and `stroke` members come from `Shape`). -/
structure Polyline (F : Type) where
  points : List (Point F)
  fill : Fill
  stroke : Stroke F
  deriving DecidableEq, Repr

/-- Constructor `Polyline(Fill const &fill, Stroke const &stroke)`: no point yet. -/
def Polyline.create {F : Type} (fill : Fill) (stroke : Stroke F) : Polyline F :=
  { points := [], fill := fill, stroke := stroke }

/-- Source `Polyline::operator<<(Point const &)`. -/
def Polyline.push {F : Type} (p : Polyline F) (point : Point F) : Polyline F :=
  { p with points := p.points ++ [point] }

/-- The loop of `Polyline::toString` that writes the points, started at index
`i` with `ss` already written: one step per remaining point. -/
def Polyline.pointsLoop {F : Type} (D : DoubleOps F) (layout : Layout F)
    (points : List (Point F)) : Nat → Nat → String → String
  | 0, _, ss => ss
  | fuel + 1, i, ss =>
    match points.get? i with
    | some pt =>
      Polyline.pointsLoop D layout points fuel (i + 1)
        (ss ++ D.fmt (translateX D pt.x layout) ++ "," ++ D.fmt (translateY D pt.y layout) ++ " ")
    | none => ss

/-- Source `Polyline::toString`. -/
def Polyline.toString {F : Type} (D : DoubleOps F) (p : Polyline F) (layout : Layout F) : String :=
  let ss := elemStart "polyline"
  let ss := ss ++ "points=\""
  let ss := Polyline.pointsLoop D layout p.points p.points.length 0 ss
  let ss := ss ++ "\" "
  ss ++ p.fill.toString ++ Stroke.toString D p.stroke layout ++ emptyElemEnd

/-! ## main.cpp: the delta decoder -/

/-- Modelled from the spec: the message type `WacomInkFormat::Path` is declared in
the generated header `will.pb.h`, which is not among the sources. Of it `getPath`
reads `decimalprecision()`, a non-negative integer, and the repeated field
`points` of signed 32-bit integers. -/
structure Path where
  decimalprecision : Nat
  points : List Int
  deriving DecidableEq, Repr

/-- The reconstruction loop of `getPath`,
`for (int i = 2; i < path.points_size(); i += 2)`, from index `i` on, with
`iv` the current contents of `integer_values`. -/
def deltaLoop (points : List Int) : Nat → Nat → List Int → Outcome (List Int)
  | 0, i, iv => if i < points.length then .fault .outOfFuel else .ok iv
  | fuel + 1, i, iv =>
    if i < points.length then
      (vecGet iv (i - 2)).bind fun a =>
      (vecGet points i).bind fun p =>
      (vecSet iv i (wrap32 (a + p))).bind fun iv1 =>
      (vecGet iv1 (i - 1)).bind fun b =>
      (vecGet points (i + 1)).bind fun q =>
      (vecSet iv1 (i + 1) (wrap32 (b + q))).bind fun iv2 =>
      deltaLoop points fuel (i + 2) iv2
    else .ok iv

/-- The vector `integer_values` of `getPath` when the second loop starts, for a
message with at least one point: zero-initialised to the size of `points`, the
first two slots copied, the rest filled by `deltaLoop`. -/
def integerValues (points : List Int) : Outcome (List Int) :=
  let integer_values := List.replicate points.length (0 : Int)
  (vecGet points 0).bind fun p0 =>
  (vecSet integer_values 0 p0).bind fun iv0 =>
  (vecGet points 1).bind fun p1 =>
  (vecSet iv0 1 p1).bind fun iv1 =>
  deltaLoop points points.length 2 iv1

/-- The output loop of `getPath`,
`for (int i = 0; i < path.points_size(); i += 2)`, from index `i` on; `size` is
`path.points_size()` and `dp` the decimal precision. -/
def pointLoop {F : Type} (D : DoubleOps F) (dp : Nat) (size : Nat) (iv : List Int) :
    Nat → Nat → Polyline F → Outcome (Polyline F)
  | 0, i, polyline => if i < size then .fault .outOfFuel else .ok polyline
  | fuel + 1, i, polyline =>
    if i < size then
      (vecGet iv i).bind fun a =>
      (vecGet iv (i + 1)).bind fun b =>
      pointLoop D dp size iv fuel (i + 2)
        (polyline.push ⟨D.div (D.ofInt a) (D.pow10 dp), D.div (D.ofInt b) (D.pow10 dp)⟩)
    else .ok polyline

/-- The body of `getPath` after `ParseFromArray` has filled `path`. -/
def getPathOfMessage {F : Type} (D : DoubleOps F) (path : Path) : Outcome (Polyline F) :=
  let polyline : Polyline F :=
    Polyline.create ⟨Color.ofDefaults .White⟩ ⟨D.ofInt 1, Color.ofDefaults .Black⟩
  if path.points.length > 0 then
    (integerValues path.points).bind fun integer_values =>
    pointLoop D path.decimalprecision path.points.length integer_values
      path.points.length 0 polyline
  else .ok polyline

/-- Source `getPath`: `parse` stands for `Path::ParseFromArray` on the first `len`
bytes of `data`; it returns the success flag and the message it leaves behind.
A failed parse only writes a line to `std::cerr`. -/
def getPath {F : Type} (D : DoubleOps F) (parse : List Nat → Bool × Path)
    (data : List Nat) (len : Nat) : Outcome (Polyline F) :=
  getPathOfMessage D (parse (data.take len)).2

/-! ## main.cpp: the record stream -/

/-- An open `zip_file_t`: the bytes not yet read and the read cursor (the
number of bytes read so far). -/
structure ZipFile where
  rest : List Nat
  pos : Nat
  deriving DecidableEq, Repr

/-- Library call `zip_fread(file, buf, n)` of libzip: the bytes it stores at the
start of `buf` (the next `n` bytes, or fewer when the stream ends first, none at
the end of the stream) and the file after the read. -/
def zip_fread (file : ZipFile) (n : Nat) : List Nat × ZipFile :=
  (file.rest.take n, { rest := file.rest.drop n, pos := file.pos + (file.rest.take n).length })

/-- The `int` expression `v << c` of `getLength`. For `c < 32` the product is
wrapped to 32 bits; for `c ≥ 32` C++ leaves the shift undefined and the value is
whatever the implementation `wide` yields, wrapped to 32 bits. -/
def shiftInt (wide : Nat → Nat → Int) (v c : Nat) : Int :=
  if c < 32 then wrap32 ((v : Int) * 2 ^ c) else wrap32 (wide v c)

/-- The loop `for (size_t i = 0; i < 16; i++)` of `getLength` from index `i` on;
`data` is the current contents of the one-byte buffer and `len` the
accumulator. -/
def getLengthLoop (wide : Nat → Nat → Int) : Nat → Nat → Nat → Nat → ZipFile → Nat × ZipFile
  | 0, _, _, len, file => (len, file)
  | fuel + 1, i, data, len, file =>
    if i < 16 then
      let rd := zip_fread file 1
      let data1 := match rd.1 with
        | b :: _ => b
        | [] => data
      let len1 := len ||| toUInt64 (shiftInt wide (data1 &&& 127) (7 * i))
      if data1 &&& 128 = 0 then (len1, rd.2)
      else getLengthLoop wide fuel (i + 1) data1 len1 rd.2
    else (len, file)

/-- Source `getLength`: the returned length and the file after the reads. -/
def getLength (wide : Nat → Nat → Int) (file : ZipFile) : Nat × ZipFile :=
  getLengthLoop wide 16 0 0 0 file

/-- Conversion of a `uint64_t` to `int` (the low 32 bits, read as signed). -/
def toInt32 (n : Nat) : Int := wrap32 (n : Int)

/-- Conversion of a `uint64_t` to `uint` (the low 32 bits). -/
def toUInt32 (n : Nat) : Nat := n % 4294967296

/-- Source `getData`: the `calloc`-ed buffer of `len` bytes after `zip_fread` has
filled its start, and the file after the read. A negative `len` asks `calloc`
for more than the address space and no buffer exists. -/
def getData (file : ZipFile) (len : Int) : Outcome (List Nat × ZipFile) :=
  if len < 0 then .fault .badAlloc
  else
    let rd := zip_fread file len.toNat
    .ok (rd.1 ++ List.replicate (len.toNat - rd.1.length) 0, rd.2)

/-- The loop `while (true)` of `read_file`, with `lines` the vector built so far. -/
def readFileLoop {F : Type} (D : DoubleOps F) (wide : Nat → Nat → Int)
    (parse : List Nat → Bool × Path) :
    Nat → ZipFile → List (Polyline F) → Outcome (List (Polyline F) × ZipFile)
  | 0, _, _ => .fault .outOfFuel
  | fuel + 1, file, lines =>
    let r := getLength wide file
    if r.1 = 0 then .ok (lines, r.2)
    else
      (getData r.2 (toInt32 r.1)).bind fun d =>
      (getPath D parse d.1 (toUInt32 r.1)).bind fun line =>
      readFileLoop D wide parse fuel d.2 (lines ++ [line])

/-- Source `read_file` (its unused `doc` parameter is left out): the returned
vector and the file after the reads. Every turn of the loop that does not stop
reads at least one byte, so one unit of fuel per remaining byte and one for the
last turn are enough. -/
def read_file {F : Type} (D : DoubleOps F) (wide : Nat → Nat → Int)
    (parse : List Nat → Bool × Path) (file : ZipFile) :
    Outcome (List (Polyline F) × ZipFile) :=
  readFileLoop D wide parse (file.rest.length + 1) file []

/-! ## simple_svg: the document -/

/-- Source `svg::Document`. -/
structure Document (F : Type) where
  file_name : String
  layout : Layout F
  body_nodes_str : String
  deriving DecidableEq, Repr

/-- Constructor `Document(std::string const &file_name, Layout layout)`. -/
def Document.create {F : Type} (file_name : String) (layout : Layout F) : Document F :=
  { file_name := file_name, layout := layout, body_nodes_str := "" }

/-- Source `Document::operator<<(Shape const &shape)`; the shape is given by its
virtual `toString` method. -/
def Document.shl {F : Type} (doc : Document F) (shape : Layout F → String) : Document F :=
  { doc with body_nodes_str := doc.body_nodes_str ++ shape doc.layout }

/-- Source `Document::toString`. -/
def Document.toString {F : Type} (D : DoubleOps F) (doc : Document F) : String :=
  "<?xml " ++ attributeStr "version" "1.0" "" ++ attributeStr "standalone" "no" ""
    ++ "?>\n<!DOCTYPE svg PUBLIC \"-//W3C//DTD SVG 1.1//EN\" "
    ++ "\"http://www.w3.org/Graphics/SVG/1.1/DTD/svg11.dtd\">\n<svg "
    ++ attributeStr "width" (D.fmt doc.layout.dimensions.width) "px"
    ++ attributeStr "height" (D.fmt doc.layout.dimensions.height) "px"
    ++ attributeStr "xmlns" "http://www.w3.org/2000/svg" ""
    ++ attributeStr "version" "1.1" "" ++ ">\n"
    ++ doc.body_nodes_str ++ elemEnd "svg"

/-! ## main.cpp: the entry filter -/

/-- Search of `std::string::find`: the first position at or after `pos` (the
position of the head of the second list) where `pat` starts, `none` for `npos`. -/
def findFrom (pat : List Char) : List Char → Nat → Option Nat
  | [], pos => if pat.isPrefixOf [] then some pos else none
  | c :: cs, pos => if pat.isPrefixOf (c :: cs) then some pos else findFrom pat cs (pos + 1)

/-- Source `std::string::find(pat)`, with `none` for `std::string::npos`. -/
def find (s pat : String) : Option Nat := findFrom pat.data s.data 0

/-- The condition under which the scan of `main` opens and decodes an entry:
`file_name.find(".protobuf") != npos && file_name.find("sections/media") != npos`. -/
def isMediaEntry (file_name : String) : Bool :=
  (find file_name ".protobuf").isSome && (find file_name "sections/media").isSome

/-! ## Exact arithmetic as a stand-in for doubles in examples -/

/-- A fraction `num / den` in lowest terms. -/
structure Q where
  num : Int
  den : Nat
  deriving DecidableEq, Repr

/-- The fraction `n / d` reduced to lowest terms. -/
def Q.norm (n : Int) (d : Nat) : Q :=
  { num := n / (Nat.gcd n.natAbs d : Int), den := d / Nat.gcd n.natAbs d }

/-- Exact rational arithmetic in the shape of `DoubleOps`. It agrees with
`double` arithmetic wherever the latter is exact, and `fmt` is the default
`ostream` format for integral values of magnitude below `10^6`. -/
def exactOps : DoubleOps Q where
  ofInt := fun n => { num := n, den := 1 }
  add := fun a b => Q.norm (a.num * b.den + b.num * a.den) (a.den * b.den)
  sub := fun a b => Q.norm (a.num * b.den - b.num * a.den) (a.den * b.den)
  mul := fun a b => Q.norm (a.num * b.num) (a.den * b.den)
  div := fun a b =>
    if b.num < 0 then Q.norm (-(a.num * b.den)) (a.den * b.num.natAbs)
    else Q.norm (a.num * b.den) (a.den * b.num.natAbs)
  pow10 := fun p => { num := 10 ^ p, den := 1 }
  lt := fun a b => decide (a.num * b.den < b.num * a.den)
  fmt := fun a =>
    if a.den = 1 then ToString.toString a.num
    else ToString.toString a.num ++ "/" ++ ToString.toString a.den

/-! ## Specification-side definitions -/

/-- Closed form of the sequence `deltaLoop` builds, used to state its loop
invariant: slot `j` in terms of slot `j - 2`. -/
def absAt (points : List Int) : Nat → Int
  | 0 => points.getD 0 0
  | 1 => points.getD 1 0
  | j + 2 => wrap32 (absAt points j + points.getD (j + 2) 0)

/-- The integer sequence `getPath` reconstructs from a point list: the vector
`integer_values`, and no value at all when the list is empty and the guarded
block `if (path.points_size() > 0)` is skipped. -/
def reconstructed (points : List Int) : Outcome (List Int) :=
  if points.length > 0 then integerValues points else .ok []

/-- Re-encoding of an absolute sequence as the round-trip law words it, over the
integers: `enc[0] = a[0]`, `enc[1] = a[1]`, `enc[j] = a[j] - a[j-2]` for `j ≥ 2`. -/
def specReencode (a : List Int) : List Int :=
  (List.range a.length).map fun j =>
    if j < 2 then a.getD j 0 else a.getD j 0 - a.getD (j - 2) 0

/-- The same re-encoding with the subtraction done in `int32_t`. -/
def specReencode32 (a : List Int) : List Int :=
  (List.range a.length).map fun j =>
    if j < 2 then a.getD j 0 else wrap32 (a.getD j 0 - a.getD (j - 2) 0)

/-- The integer a varint byte sequence encodes: the sum over `i` of
`(b_i & 127) * 2^(7*i)`. -/
def varintValue : List Nat → Nat
  | [] => 0
  | b :: bs => (b &&& 127) + 128 * varintValue bs

/-- A terminated varint: non-empty, every byte but the last has the high bit
(128) set and the last has it clear. -/
def isVarint : List Nat → Bool
  | [] => false
  | [b] => decide (b &&& 128 = 0)
  | b :: c :: bs => decide (b &&& 128 ≠ 0) && isVarint (c :: bs)

/-- A record on the wire: the bytes of its varint length and its payload. -/
structure WireRecord where
  header : List Nat
  payload : List Nat
  deriving DecidableEq, Repr

/-- The bytes of a sequence of records, in order:
`[varint length][length bytes of encoded message]`, repeated. -/
def wireBytes : List WireRecord → List Nat
  | [] => []
  | r :: rs => r.header ++ (r.payload ++ wireBytes rs)

/-- The number of bytes of a sequence of records. -/
def wireSize : List WireRecord → Nat
  | [] => 0
  | r :: rs => r.header.length + r.payload.length + wireSize rs

/-- A record whose header is a terminated varint of at most 16 bytes that
`getLength` reads as the length of the payload, the payload being non-empty and
its length an `int` (below `2^31`). -/
def WireRecord.announced (wide : Nat → Nat → Int) (r : WireRecord) : Prop :=
  isVarint r.header = true ∧ r.header.length ≤ 16 ∧
    (getLength wide { rest := r.header, pos := 0 }).1 = r.payload.length ∧
    r.payload.length ≠ 0 ∧ r.payload.length < 2147483648

instance (wide : Nat → Nat → Int) (r : WireRecord) : Decidable (r.announced wide) := by
  unfold WireRecord.announced
  infer_instance

/-- The text `Polyline::toString` writes for one point. -/
def pointText {F : Type} (D : DoubleOps F) (layout : Layout F) (pt : Point F) : String :=
  D.fmt (translateX D pt.x layout) ++ "," ++ D.fmt (translateY D pt.y layout) ++ " "

/-- Concatenation of a list of fragments, in order. -/
def concatAll : List String → String
  | [] => ""
  | s :: ss => s ++ concatAll ss

/-! ## simple_svg: default styles and persistence -/

/-- Constructor `Color()`: opaque black. -/
def Color.default : Color := { transparent := false, red := 0, green := 0, blue := 0 }

/-- Constructor `Stroke()`: width `-1` and the default-constructed colour. -/
def Stroke.default {F : Type} (D : DoubleOps F) : Stroke F :=
  { width := D.ofInt (-1), color := Color.default }

/-- Constructor `Fill(Color::Defaults color)`. -/
def Fill.ofDefaults (color : Defaults) : Fill := { color := Color.ofDefaults color }

/-- A call of the `const` method `Document::toString`: the returned string and
the Document after the call. -/
def Document.toStringCall {F : Type} (D : DoubleOps F) (doc : Document F) :
    String × Document F :=
  (Document.toString D doc, doc)

/-- The storage `Document::save` writes to: whether `std::ofstream ofs(name)` is
`good()` after opening `name` for writing, and the contents of the files. -/
structure FileSystem where
  writable : String → Bool
  content : String → Option String

/-- The storage after `text` has been written to the freshly opened `name`. -/
def FileSystem.write (fs : FileSystem) (name text : String) : FileSystem :=
  { fs with content := fun n => if n = name then some text else fs.content n }

/-- Source `Document::save`: the returned flag and the storage after the call. -/
def Document.save {F : Type} (D : DoubleOps F) (doc : Document F) (fs : FileSystem) :
    Bool × FileSystem :=
  if !fs.writable doc.file_name then (false, fs)
  else (true, fs.write doc.file_name (Document.toString D doc))

/-! ## main.cpp: output name, scan and save -/

/-- The default output name of `main` (taken when no `-o` was given) and the
line it writes to `std::cerr`: `will_file_name.find(".will")`, then either
`will_file_name + ".svg"` or `will_file_name.substr(0, file_name_length) + ".svg"`. -/
def defaultSvgName (will_file_name : String) : String × List String :=
  match find will_file_name ".will" with
  | none => (will_file_name ++ ".svg", ["not a .will file! Will append .svg\n"])
  | some file_name_length =>
    (String.mk (will_file_name.data.take file_name_length) ++ ".svg", [])

/-- An entry of the container as the scan of `main` sees it: `file_stat.name` and
what `zip_fopen_index` gives, the bytes of the entry or `none` for `NULL`. -/
structure Entry where
  name : String
  file : Option (List Nat)
  deriving DecidableEq, Repr

/-- The loop `while (zip_stat_index(will_file, i, 0, &file_stat) == 0)` of `main`
over the entries from index `i` on; `cerr` collects the lines `main` itself writes
to `std::cerr`. -/
def scanLoop {F : Type} (D : DoubleOps F) (wide : Nat → Nat → Int)
    (parse : List Nat → Bool × Path) :
    List Entry → Document F → List String → Outcome (Document F × List String)
  | [], doc, cerr => .ok (doc, cerr)
  | e :: es, doc, cerr =>
    if isMediaEntry e.name then
      match e.file with
      | some bytes =>
        (read_file D wide parse { rest := bytes, pos := 0 }).bind fun r =>
        scanLoop D wide parse es
          (r.1.foldl (fun d line => d.shl (Polyline.toString D line)) doc) cerr
      | none => scanLoop D wide parse es doc (cerr ++ ["error opening " ++ e.name ++ "\n"])
    else scanLoop D wide parse es doc cerr

/-- What a run of `main` leaves behind: exit status, the lines `main` wrote to
`std::cerr`, the Document and the storage. -/
structure MainResult (F : Type) where
  status : Nat
  cerr : List String
  doc : Document F
  fs : FileSystem

/-- Source `main` from the point where the container is open (line 197 on):
`svg_file_name` is empty when no `-o` was given, `entries` is the container
listing. The value of `doc.save()` is discarded and control reaches the end of
`main`, which is exit status 0. -/
def mainAfterOpen {F : Type} (D : DoubleOps F) (wide : Nat → Nat → Int)
    (parse : List Nat → Bool × Path) (will_file_name svg_file_name : String)
    (entries : List Entry) (fs : FileSystem) : Outcome (MainResult F) :=
  let name := if svg_file_name = "" then defaultSvgName will_file_name else (svg_file_name, [])
  let dimensions : Dimensions F := { width := D.ofInt 592, height := D.ofInt 864 }
  let doc := Document.create name.1 (Layout.ofDimensions D dimensions .TopLeft)
  (scanLoop D wide parse entries doc name.2).bind fun r =>
    let saved := Document.save D r.1 fs
    .ok { status := 0, cerr := r.2, doc := r.1, fs := saved.2 }

/-- The Polylines an entry contributes to the Document in the scan of `main`:
those `read_file` returns when the entry passes the name filter and opens, and
none otherwise. -/
def Entry.contributes {F : Type} (D : DoubleOps F) (wide : Nat → Nat → Int)
    (parse : List Nat → Bool × Path) (e : Entry) (lines : List (Polyline F)) : Prop :=
  match isMediaEntry e.name, e.file with
  | true, some bytes => ∃ f, read_file D wide parse { rest := bytes, pos := 0 } = .ok (lines, f)
  | _, _ => lines = []

/-! ## simple_svg: the other shapes, offset and copy assignment -/

/-- Constructor `Fill()`: the default-constructed colour. -/
def Fill.default : Fill := { color := Color.default }

/-- Source `svg::Font`. -/
structure Font (F : Type) where
  size : F
  family : String
  deriving DecidableEq, Repr

/-- Source `Font::toString`. -/
def Font.toString {F : Type} (D : DoubleOps F) (f : Font F) (layout : Layout F) : String :=
  attributeStr "font-size" (D.fmt (translateScale D f.size layout)) ""
    ++ attributeStr "font-family" f.family ""

/-- The statements `p.x += offset.x; p.y += offset.y;` on a point `p`. -/
def Point.shift {F : Type} (D : DoubleOps F) (offset : Point F) (p : Point F) : Point F :=
  { x := D.add p.x offset.x, y := D.add p.y offset.y }

/-- The loop `for (unsigned i = 0; i < v.size(); ++i)` that updates `v[i]` in
place by `f`, from index `i` on. -/
def updateLoop {α : Type} (f : α → α) : Nat → Nat → List α → List α
  | 0, _, v => v
  | fuel + 1, i, v =>
    match v.get? i with
    | some a => updateLoop f fuel (i + 1) (v.set i (f a))
    | none => v

/-- Source `svg::Circle` (with the `fill` and `stroke` of `Shape`). -/
structure Circle (F : Type) where
  center : Point F
  radius : F
  fill : Fill
  stroke : Stroke F
  deriving DecidableEq, Repr

/-- Constructor `Circle(center, diameter, fill, stroke)`. -/
def Circle.create {F : Type} (D : DoubleOps F) (center : Point F) (diameter : F) (fill : Fill)
    (stroke : Stroke F) : Circle F :=
  { center := center, radius := D.div diameter (D.ofInt 2), fill := fill, stroke := stroke }

/-- Source `Circle::toString`. -/
def Circle.toString {F : Type} (D : DoubleOps F) (c : Circle F) (layout : Layout F) : String :=
  elemStart "circle" ++ attributeStr "cx" (D.fmt (translateX D c.center.x layout)) ""
    ++ attributeStr "cy" (D.fmt (translateY D c.center.y layout)) ""
    ++ attributeStr "r" (D.fmt (translateScale D c.radius layout)) ""
    ++ c.fill.toString ++ Stroke.toString D c.stroke layout ++ emptyElemEnd

/-- Source `Circle::offset`. -/
def Circle.offset {F : Type} (D : DoubleOps F) (c : Circle F) (offset : Point F) : Circle F :=
  { c with center := Point.shift D offset c.center }

/-- Source `Circle::operator=`: the object `a` after `a = other`. -/
def Circle.assign {F : Type} (a other : Circle F) : Circle F :=
  { a with center := other.center, radius := other.radius, fill := other.fill,
           stroke := other.stroke }

/-- Source `svg::Elipse`. -/
structure Elipse (F : Type) where
  center : Point F
  radius_width : F
  radius_height : F
  fill : Fill
  stroke : Stroke F
  deriving DecidableEq, Repr

/-- Source `Elipse::toString`. -/
def Elipse.toString {F : Type} (D : DoubleOps F) (e : Elipse F) (layout : Layout F) : String :=
  elemStart "ellipse" ++ attributeStr "cx" (D.fmt (translateX D e.center.x layout)) ""
    ++ attributeStr "cy" (D.fmt (translateY D e.center.y layout)) ""
    ++ attributeStr "rx" (D.fmt (translateScale D e.radius_width layout)) ""
    ++ attributeStr "ry" (D.fmt (translateScale D e.radius_height layout)) ""
    ++ e.fill.toString ++ Stroke.toString D e.stroke layout ++ emptyElemEnd

/-- Source `Elipse::offset`. -/
def Elipse.offset {F : Type} (D : DoubleOps F) (e : Elipse F) (offset : Point F) : Elipse F :=
  { e with center := Point.shift D offset e.center }

/-- Source `Elipse::operator=`. -/
def Elipse.assign {F : Type} (a other : Elipse F) : Elipse F :=
  { a with center := other.center, radius_width := other.radius_width,
           radius_height := other.radius_height, fill := other.fill, stroke := other.stroke }

/-- Source `svg::Rectangle`. -/
structure Rectangle (F : Type) where
  edge : Point F
  width : F
  height : F
  fill : Fill
  stroke : Stroke F
  deriving DecidableEq, Repr

/-- Source `Rectangle::toString`. -/
def Rectangle.toString {F : Type} (D : DoubleOps F) (r : Rectangle F) (layout : Layout F) :
    String :=
  elemStart "rect" ++ attributeStr "x" (D.fmt (translateX D r.edge.x layout)) ""
    ++ attributeStr "y" (D.fmt (translateY D r.edge.y layout)) ""
    ++ attributeStr "width" (D.fmt (translateScale D r.width layout)) ""
    ++ attributeStr "height" (D.fmt (translateScale D r.height layout)) ""
    ++ r.fill.toString ++ Stroke.toString D r.stroke layout ++ emptyElemEnd

/-- Source `Rectangle::offset`. -/
def Rectangle.offset {F : Type} (D : DoubleOps F) (r : Rectangle F) (offset : Point F) :
    Rectangle F :=
  { r with edge := Point.shift D offset r.edge }

/-- Source `Rectangle::operator=`. -/
def Rectangle.assign {F : Type} (a other : Rectangle F) : Rectangle F :=
  { a with edge := other.edge, width := other.width, height := other.height,
           fill := other.fill, stroke := other.stroke }

/-- Source `svg::Line`. -/
structure Line (F : Type) where
  start_point : Point F
  end_point : Point F
  fill : Fill
  stroke : Stroke F
  deriving DecidableEq, Repr

/-- Source `Line::toString`. -/
def Line.toString {F : Type} (D : DoubleOps F) (l : Line F) (layout : Layout F) : String :=
  elemStart "line" ++ attributeStr "x1" (D.fmt (translateX D l.start_point.x layout)) ""
    ++ attributeStr "y1" (D.fmt (translateY D l.start_point.y layout)) ""
    ++ attributeStr "x2" (D.fmt (translateX D l.end_point.x layout)) ""
    ++ attributeStr "y2" (D.fmt (translateY D l.end_point.y layout)) ""
    ++ Stroke.toString D l.stroke layout ++ emptyElemEnd

/-- Source `Line::offset`. -/
def Line.offset {F : Type} (D : DoubleOps F) (l : Line F) (offset : Point F) : Line F :=
  { l with start_point := Point.shift D offset l.start_point,
           end_point := Point.shift D offset l.end_point }

/-- Source `Line::operator=`. -/
def Line.assign {F : Type} (a other : Line F) : Line F :=
  { a with start_point := other.start_point, end_point := other.end_point,
           fill := other.fill, stroke := other.stroke }

/-- Source `svg::Polygon`. -/
structure Polygon (F : Type) where
  points : List (Point F)
  fill : Fill
  stroke : Stroke F
  deriving DecidableEq, Repr

/-- Source `Polygon::toString`; its loop over the points is the one of
`Polyline::toString`. -/
def Polygon.toString {F : Type} (D : DoubleOps F) (p : Polygon F) (layout : Layout F) : String :=
  let ss := elemStart "polygon"
  let ss := ss ++ "points=\""
  let ss := Polyline.pointsLoop D layout p.points p.points.length 0 ss
  let ss := ss ++ "\" "
  ss ++ p.fill.toString ++ Stroke.toString D p.stroke layout ++ emptyElemEnd

/-- Source `Polygon::offset`. -/
def Polygon.offset {F : Type} (D : DoubleOps F) (p : Polygon F) (offset : Point F) : Polygon F :=
  { p with points := updateLoop (Point.shift D offset) p.points.length 0 p.points }

/-- Source `Polygon::operator=`. -/
def Polygon.assign {F : Type} (a other : Polygon F) : Polygon F :=
  { a with points := other.points, fill := other.fill, stroke := other.stroke }

/-- Source `Polyline::offset`. -/
def Polyline.offset {F : Type} (D : DoubleOps F) (p : Polyline F) (offset : Point F) :
    Polyline F :=
  { p with points := updateLoop (Point.shift D offset) p.points.length 0 p.points }

/-- Source `Polyline::operator=`. -/
def Polyline.assign {F : Type} (a other : Polyline F) : Polyline F :=
  { a with points := other.points, fill := other.fill, stroke := other.stroke }

/-- Source `svg::Text`. -/
structure Text (F : Type) where
  origin : Point F
  content : String
  font : Font F
  fill : Fill
  stroke : Stroke F
  deriving DecidableEq, Repr

/-- Source `Text::toString`. -/
def Text.toString {F : Type} (D : DoubleOps F) (t : Text F) (layout : Layout F) : String :=
  elemStart "text" ++ attributeStr "x" (D.fmt (translateX D t.origin.x layout)) ""
    ++ attributeStr "y" (D.fmt (translateY D t.origin.y layout)) ""
    ++ t.fill.toString ++ Stroke.toString D t.stroke layout ++ Font.toString D t.font layout
    ++ ">" ++ t.content ++ elemEnd "text"

/-- Source `Text::offset`. -/
def Text.offset {F : Type} (D : DoubleOps F) (t : Text F) (offset : Point F) : Text F :=
  { t with origin := Point.shift D offset t.origin }

/-- Source `Text::operator=`: it assigns `origin`, `content` and `font` only. -/
def Text.assign {F : Type} (a other : Text F) : Text F :=
  { a with origin := other.origin, content := other.content, font := other.font }

/-- A point whose coordinates are unchanged by adding `0.0` (in IEEE arithmetic
every coordinate but the negative zero). -/
def Point.fixedByZero {F : Type} (D : DoubleOps F) (p : Point F) : Prop :=
  D.add p.x (D.ofInt 0) = p.x ∧ D.add p.y (D.ofInt 0) = p.y

instance {F : Type} [DecidableEq F] (D : DoubleOps F) (p : Point F) :
    Decidable (p.fixedByZero D) := by
  unfold Point.fixedByZero
  infer_instance

/-! ## simple_svg: optional values and the line chart -/

/-- Source `svg::optional<T>`. -/
structure Optional (T : Type) where
  valid : Bool
  type : T
  deriving DecidableEq, Repr

/-- Result of code that may throw `std::exception`. -/
inductive Thrown (α : Type) where
  | value (a : α)
  | exception
  deriving DecidableEq, Repr

/-- Sequencing: an exception leaves the function at once. -/
def Thrown.bind {α β : Type} (x : Thrown α) (f : α → Thrown β) : Thrown β :=
  match x with
  | .value a => f a
  | .exception => .exception

/-- Source `optional<T>::operator->`: throws on an invalid value. -/
def Optional.arrow {T : Type} (o : Optional T) : Thrown T :=
  if !o.valid then .exception else .value o.type

/-- Source `svg::getMinPoint`; `Point()` is `(0, 0)`. -/
def getMinPoint {F : Type} (D : DoubleOps F) (points : List (Point F)) : Optional (Point F) :=
  match points with
  | [] => { valid := false, type := ⟨D.ofInt 0, D.ofInt 0⟩ }
  | p0 :: _ =>
    { valid := true,
      type := points.foldl (fun min p =>
        let min1 : Point F := if D.lt p.x min.x then { min with x := p.x } else min
        if D.lt p.y min1.y then { min1 with y := p.y } else min1) p0 }

/-- Source `svg::getMaxPoint`; `a > b` is `b < a`. -/
def getMaxPoint {F : Type} (D : DoubleOps F) (points : List (Point F)) : Optional (Point F) :=
  match points with
  | [] => { valid := false, type := ⟨D.ofInt 0, D.ofInt 0⟩ }
  | p0 :: _ =>
    { valid := true,
      type := points.foldl (fun max p =>
        let max1 : Point F := if D.lt max.x p.x then { max with x := p.x } else max
        if D.lt max1.y p.y then { max1 with y := p.y } else max1) p0 }

/-- Source `svg::vectorToString` for a vector of circles. -/
def vectorToString {F : Type} (D : DoubleOps F) (collection : List (Circle F))
    (layout : Layout F) : String :=
  collection.foldl (fun combination_str c => combination_str ++ Circle.toString D c layout) ""

/-- Source `svg::LineChart` (with the `fill` and `stroke` of `Shape`). -/
structure LineChart (F : Type) where
  axis_stroke : Stroke F
  margin : Dimensions F
  scale : F
  polylines : List (Polyline F)
  fill : Fill
  stroke : Stroke F
  deriving DecidableEq, Repr

/-- Constructor `LineChart()`: scale 1, everything else default-constructed. -/
def LineChart.default {F : Type} (D : DoubleOps F) : LineChart F :=
  { axis_stroke := Stroke.default D, margin := ⟨D.ofInt 0, D.ofInt 0⟩, scale := D.ofInt 1,
    polylines := [], fill := Fill.default, stroke := Stroke.default D }

/-- Constructor `LineChart(Dimensions margin, double scale, Stroke const &axis_stroke)`. -/
def LineChart.create {F : Type} (D : DoubleOps F) (margin : Dimensions F) (scale : F)
    (axis_stroke : Stroke F) : LineChart F :=
  { axis_stroke := axis_stroke, margin := margin, scale := scale,
    polylines := [], fill := Fill.default, stroke := Stroke.default D }

/-- Source `LineChart::operator<<(Polyline const &)`. -/
def LineChart.shl {F : Type} (c : LineChart F) (polyline : Polyline F) : LineChart F :=
  if polyline.points.isEmpty then c
  else { c with polylines := c.polylines ++ [polyline] }

/-- Source `LineChart::offset`. -/
def LineChart.offset {F : Type} (D : DoubleOps F) (c : LineChart F) (offset : Point F) :
    LineChart F :=
  { c with polylines :=
      updateLoop (fun p => Polyline.offset D p offset) c.polylines.length 0 c.polylines }

/-- Source `LineChart::operator=`. -/
def LineChart.assign {F : Type} (a other : LineChart F) : LineChart F :=
  { a with axis_stroke := other.axis_stroke, margin := other.margin, scale := other.scale,
           polylines := other.polylines }

/-- One turn of the loop of `LineChart::getDimensions` on the polyline `p`; the
state is the pair `min`, `max`. -/
def LineChart.dimensionsStep {F : Type} (D : DoubleOps F) (p : Polyline F)
    (mm : Optional (Point F) × Optional (Point F)) :
    Thrown (Optional (Point F) × Optional (Point F)) :=
  (getMinPoint D p.points).arrow.bind fun pmin =>
  mm.1.arrow.bind fun m0 =>
  let min1 : Optional (Point F) :=
    if D.lt pmin.x m0.x then { mm.1 with type := { m0 with x := pmin.x } } else mm.1
  min1.arrow.bind fun m1 =>
  let min2 : Optional (Point F) :=
    if D.lt pmin.y m1.y then { min1 with type := { m1 with y := pmin.y } } else min1
  (getMaxPoint D p.points).arrow.bind fun pmax =>
  mm.2.arrow.bind fun x0 =>
  let max1 : Optional (Point F) :=
    if D.lt x0.x pmax.x then { mm.2 with type := { x0 with x := pmax.x } } else mm.2
  max1.arrow.bind fun x1 =>
  let max2 : Optional (Point F) :=
    if D.lt x1.y pmax.y then { max1 with type := { x1 with y := pmax.y } } else max1
  .value (min2, max2)

/-- The loop of `LineChart::getDimensions` over the polylines still to visit. -/
def LineChart.dimensionsLoop {F : Type} (D : DoubleOps F) :
    List (Polyline F) → Optional (Point F) × Optional (Point F) →
      Thrown (Optional (Point F) × Optional (Point F))
  | [], mm => .value mm
  | p :: ps, mm => (LineChart.dimensionsStep D p mm).bind (LineChart.dimensionsLoop D ps)

/-- Source `LineChart::getDimensions`; `Dimensions()` is `(0, 0)`. -/
def LineChart.getDimensions {F : Type} (D : DoubleOps F) (c : LineChart F) :
    Thrown (Optional (Dimensions F)) :=
  match c.polylines with
  | [] => .value { valid := false, type := ⟨D.ofInt 0, D.ofInt 0⟩ }
  | p0 :: _ =>
    (LineChart.dimensionsLoop D c.polylines
      (getMinPoint D p0.points, getMaxPoint D p0.points)).bind fun mm =>
    mm.2.arrow.bind fun max =>
    mm.1.arrow.bind fun min =>
    .value { valid := true, type := ⟨D.sub max.x min.x, D.sub max.y min.y⟩ }

/-- Source `LineChart::axisString`; the literal `1.1` is the quotient `11 / 10`. -/
def LineChart.axisString {F : Type} (D : DoubleOps F) (c : LineChart F) (layout : Layout F) :
    Thrown String :=
  (LineChart.getDimensions D c).bind fun dimensions =>
  if !dimensions.valid then .value ""
  else
    dimensions.arrow.bind fun d =>
    let width := D.mul d.width (D.div (D.ofInt 11) (D.ofInt 10))
    let height := D.mul d.height (D.div (D.ofInt 11) (D.ofInt 10))
    let axis := ((Polyline.create (Fill.ofDefaults .Transparent) c.axis_stroke).push
        ⟨c.margin.width, D.add c.margin.height height⟩).push
        ⟨c.margin.width, c.margin.height⟩ |>.push
        ⟨D.add c.margin.width width, c.margin.height⟩
    .value (Polyline.toString D axis layout)

/-- The loop of `LineChart::polylineToString` that builds the vertex circles
for the points still to visit. -/
def LineChart.verticesLoop {F : Type} (D : DoubleOps F) (c : LineChart F) :
    List (Point F) → List (Circle F) → Thrown (List (Circle F))
  | [], vertices => .value vertices
  | pt :: pts, vertices =>
    (LineChart.getDimensions D c).bind fun dimensions =>
    dimensions.arrow.bind fun d =>
    LineChart.verticesLoop D c pts
      (vertices ++ [Circle.create D pt (D.div d.height (D.ofInt 30)) (Fill.ofDefaults .Black)
        ⟨D.ofInt 1, Color.ofDefaults .Transparent⟩])

/-- Source `LineChart::polylineToString`. -/
def LineChart.polylineToString {F : Type} (D : DoubleOps F) (c : LineChart F)
    (polyline : Polyline F) (layout : Layout F) : Thrown String :=
  let shifted_polyline := Polyline.offset D polyline ⟨c.margin.width, c.margin.height⟩
  (LineChart.verticesLoop D c shifted_polyline.points []).bind fun vertices =>
  .value (Polyline.toString D shifted_polyline layout ++ vectorToString D vertices layout)

/-- The loop of `LineChart::toString` over the polylines still to visit. -/
def LineChart.toStringLoop {F : Type} (D : DoubleOps F) (c : LineChart F) (layout : Layout F) :
    List (Polyline F) → String → Thrown String
  | [], ret => .value ret
  | p :: ps, ret =>
    (LineChart.polylineToString D c p layout).bind fun s =>
    LineChart.toStringLoop D c layout ps (ret ++ s)

/-- Source `LineChart::toString`. -/
def LineChart.toString {F : Type} (D : DoubleOps F) (c : LineChart F) (layout : Layout F) :
    Thrown String :=
  if c.polylines.isEmpty then .value ""
  else
    (LineChart.toStringLoop D c layout c.polylines "").bind fun ret =>
    (LineChart.axisString D c layout).bind fun axis =>
    .value (ret ++ axis)

/-- The charts a program can build: from the two constructors through
`operator<<`, `offset` and `operator=`. -/
inductive LineChart.Reachable {F : Type} (D : DoubleOps F) : LineChart F → Prop where
  | default : LineChart.Reachable D (LineChart.default D)
  | create (margin : Dimensions F) (scale : F) (axis_stroke : Stroke F) :
      LineChart.Reachable D (LineChart.create D margin scale axis_stroke)
  | shl (c : LineChart F) (polyline : Polyline F) :
      LineChart.Reachable D c → LineChart.Reachable D (c.shl polyline)
  | offset (c : LineChart F) (o : Point F) :
      LineChart.Reachable D c → LineChart.Reachable D (c.offset D o)
  | assign (a other : LineChart F) :
      LineChart.Reachable D a → LineChart.Reachable D other →
      LineChart.Reachable D (a.assign other)

/-! ## Theorems -/

set_option maxRecDepth 100000

theorem wrap32_of_fits32 {x : Int} (h : fits32 x) : wrap32 x = x := by
  unfold fits32 at h
  unfold wrap32
  omega

theorem fits32_wrap32 (x : Int) : fits32 (wrap32 x) := by
  unfold fits32 wrap32
  omega

theorem vecGet_of_lt {α : Type} (v : List α) (i : Nat) (d : α) (h : i < v.length) :
    vecGet v i = .ok (v.getD i d) := by
  simp [vecGet, List.getD, List.getElem?_eq_getElem h]

theorem vecGet_of_le {α : Type} (v : List α) (i : Nat) (h : v.length ≤ i) :
    vecGet v i = .fault .outOfBounds := by
  simp [vecGet, List.getElem?_eq_none h]

theorem vecSet_of_lt {α : Type} (v : List α) (i : Nat) (x : α) (h : i < v.length) :
    vecSet v i x = .ok (v.set i x) := by
  simp [vecSet, h]

theorem getD_set_self {α : Type} (v : List α) (i : Nat) (x d : α) (h : i < v.length) :
    (v.set i x).getD i d = x := by
  simp [List.getD, List.getElem?_set, h]

theorem getD_set_of_ne {α : Type} (v : List α) (i j : Nat) (x d : α) (h : i ≠ j) :
    (v.set i x).getD j d = v.getD j d := by
  simp [List.getD, List.getElem?_set, h]

theorem deltaLoop_ok (points : List Int) :
    ∀ (m fuel i : Nat) (iv : List Int), i + 2 * m = points.length → m ≤ fuel → 2 ≤ i →
      iv.length = points.length → (∀ j, j < i → iv.getD j 0 = absAt points j) →
      ∃ a, deltaLoop points fuel i iv = .ok a ∧ a.length = points.length ∧
        ∀ j, j < points.length → a.getD j 0 = absAt points j := by
  intro m
  induction m with
  | zero =>
    intro fuel i iv hi _ _ hlen hinv
    have hni : ¬ i < points.length := by omega
    refine ⟨iv, ?_, hlen, fun j hj => hinv j (by omega)⟩
    cases fuel <;> simp [deltaLoop, hni]
  | succ m ih =>
    intro fuel i iv hi hfuel h2 hlen hinv
    obtain ⟨f, rfl⟩ : ∃ f, fuel = f + 1 := ⟨fuel - 1, by omega⟩
    have hi1 : i < points.length := by omega
    have hi2 : i + 1 < points.length := by omega
    have e1 : vecGet iv (i - 2) = .ok (iv.getD (i - 2) 0) := vecGet_of_lt _ _ _ (by omega)
    have e2 : vecGet points i = .ok (points.getD i 0) := vecGet_of_lt _ _ _ hi1
    have e3 := vecSet_of_lt iv i (wrap32 (iv.getD (i - 2) 0 + points.getD i 0)) (by omega)
    have e4 : vecGet (iv.set i (wrap32 (iv.getD (i - 2) 0 + points.getD i 0))) (i - 1)
        = .ok (iv.getD (i - 1) 0) := by
      rw [vecGet_of_lt _ _ 0 (by simp; omega), getD_set_of_ne _ _ _ _ _ (by omega)]
    have e5 : vecGet points (i + 1) = .ok (points.getD (i + 1) 0) := vecGet_of_lt _ _ _ hi2
    have e6 := vecSet_of_lt (iv.set i (wrap32 (iv.getD (i - 2) 0 + points.getD i 0))) (i + 1)
      (wrap32 (iv.getD (i - 1) 0 + points.getD (i + 1) 0)) (by simp; omega)
    have hstep : deltaLoop points (f + 1) i iv = deltaLoop points f (i + 2)
        ((iv.set i (wrap32 (iv.getD (i - 2) 0 + points.getD i 0))).set (i + 1)
          (wrap32 (iv.getD (i - 1) 0 + points.getD (i + 1) 0))) := by
      rw [deltaLoop]
      simp only [hi1, if_true, e1, e2, e3, e4, e5, e6, Outcome.bind]
    rw [hstep]
    apply ih
    · omega
    · omega
    · omega
    · simp [hlen]
    · intro j hj
      obtain ⟨i0, rfl⟩ : ∃ i0, i = i0 + 2 := ⟨i - 2, by omega⟩
      by_cases hj1 : j = i0 + 2 + 1
      · subst hj1
        rw [getD_set_self _ _ _ _ (by simp; omega)]
        have := hinv (i0 + 1) (by omega)
        simp only [Nat.add_sub_cancel] at *
        show _ = absAt points (i0 + 1 + 2)
        rw [absAt, ← this]
        rfl
      · rw [getD_set_of_ne _ _ _ _ _ (by omega)]
        by_cases hj2 : j = i0 + 2
        · subst hj2
          rw [getD_set_self _ _ _ _ (by omega)]
          have := hinv i0 (by omega)
          simp only [Nat.add_sub_cancel] at *
          rw [absAt, ← this]
        · rw [getD_set_of_ne _ _ _ _ _ (by omega)]
          exact hinv j (by omega)

theorem integerValues_ok (points : List Int) (k : Nat) (hk : 1 ≤ k)
    (hlen : points.length = 2 * k) :
    ∃ a, integerValues points = .ok a ∧ a.length = points.length ∧
      ∀ j, j < points.length → a.getD j 0 = absAt points j := by
  have e0 : vecGet points 0 = .ok (points.getD 0 0) := vecGet_of_lt _ _ _ (by omega)
  have e1 : vecGet points 1 = .ok (points.getD 1 0) := vecGet_of_lt _ _ _ (by omega)
  have e2 := vecSet_of_lt (List.replicate points.length (0 : Int)) 0 (points.getD 0 0)
    (by simp; omega)
  have e3 := vecSet_of_lt ((List.replicate points.length (0 : Int)).set 0 (points.getD 0 0)) 1
    (points.getD 1 0) (by simp; omega)
  have hred : integerValues points = deltaLoop points points.length 2
      (((List.replicate points.length (0 : Int)).set 0 (points.getD 0 0)).set 1
        (points.getD 1 0)) := by
    simp only [integerValues, e0, e1, e2, e3, Outcome.bind]
  rw [hred]
  apply deltaLoop_ok points (k - 1)
  · omega
  · omega
  · omega
  · simp
  · intro j hj
    have : j = 0 ∨ j = 1 := by omega
    rcases this with rfl | rfl
    · rw [getD_set_of_ne _ _ _ _ _ (by omega), getD_set_self _ _ _ _ (by simp; omega)]
      rfl
    · rw [getD_set_self _ _ _ _ (by simp; omega)]
      rfl


/-- C1: for a point list of even length `2k` with `k ≥ 1`, `getPath` fills
`integer_values` with a sequence `absolute` of the same length whose first two
values are the first two points and whose every later value is the value two
slots back plus the point at that index, the sum being the `int32_t` sum of the
code (which is the exact sum whenever that fits an `int32_t`). -/
theorem getPath_absolute_recurrence (points : List Int) (k : Nat) (hk : 1 ≤ k)
    (hlen : points.length = 2 * k) :
    ∃ absolute, integerValues points = .ok absolute ∧ absolute.length = 2 * k ∧
      absolute.getD 0 0 = points.getD 0 0 ∧ absolute.getD 1 0 = points.getD 1 0 ∧
      ∀ j, 2 ≤ j → j < 2 * k →
        absolute.getD j 0 = wrap32 (absolute.getD (j - 2) 0 + points.getD j 0) ∧
        (fits32 (absolute.getD (j - 2) 0 + points.getD j 0) →
          absolute.getD j 0 = absolute.getD (j - 2) 0 + points.getD j 0) := by
  obtain ⟨a, ha, hl, hv⟩ := integerValues_ok points k hk hlen
  refine ⟨a, ha, by omega, ?_, ?_, ?_⟩
  · rw [hv 0 (by omega)]; rfl
  · rw [hv 1 (by omega)]; rfl
  · intro j h2 hj
    obtain ⟨j0, rfl⟩ : ∃ j0, j = j0 + 2 := ⟨j - 2, by omega⟩
    have hrec : a.getD (j0 + 2) 0 = wrap32 (a.getD (j0 + 2 - 2) 0 + points.getD (j0 + 2) 0) := by
      rw [hv (j0 + 2) (by omega), Nat.add_sub_cancel, hv j0 (by omega)]
      rfl
    refine ⟨hrec, fun hfit => ?_⟩
    rw [hrec, wrap32_of_fits32 hfit]

/-- Witness for C1 at the points `[10, 10, 5, -5]`, whose absolute values are
`[10, 10, 15, 5]`. -/
theorem getPath_absolute_recurrence_witness :
    (1 ≤ 2 ∧ [(10 : Int), 10, 5, -5].length = 2 * 2) ∧
      integerValues [10, 10, 5, -5] = .ok [10, 10, 15, 5] ∧
      ∃ absolute, integerValues [10, 10, 5, -5] = .ok absolute ∧ absolute.length = 2 * 2 ∧
        absolute.getD 0 0 = 10 ∧ absolute.getD 1 0 = 10 ∧
        absolute.getD 2 0 = wrap32 (absolute.getD 0 0 + 5) := by
  obtain ⟨a, h1, h2, h3, h4, h5⟩ :=
    getPath_absolute_recurrence [10, 10, 5, -5] 2 (by decide) (by decide)
  exact ⟨by decide, by decide, a, h1, h2, h3, h4, (h5 2 (by decide) (by decide)).1⟩

/-- The point `getPath` appends for the pair of slots `i`, `i + 1`. -/
theorem pointLoop_ok {F : Type} (D : DoubleOps F) (dp size : Nat) (iv : List Int)
    (hiv : iv.length = size) :
    ∀ (m fuel i : Nat) (pl : Polyline F), i + 2 * m = size → m ≤ fuel →
      pointLoop D dp size iv fuel i pl = .ok
        { pl with points := pl.points ++ (List.range m).map fun t =>
            ⟨D.div (D.ofInt (iv.getD (i + 2 * t) 0)) (D.pow10 dp),
             D.div (D.ofInt (iv.getD (i + 2 * t + 1) 0)) (D.pow10 dp)⟩ } := by
  intro m
  induction m with
  | zero =>
    intro fuel i pl hi _
    have hni : ¬ i < size := by omega
    cases fuel <;> simp [pointLoop, hni]
  | succ m ih =>
    intro fuel i pl hi hfuel
    obtain ⟨f, rfl⟩ : ∃ f, fuel = f + 1 := ⟨fuel - 1, by omega⟩
    have hi1 : i < size := by omega
    have e1 : vecGet iv i = .ok (iv.getD i 0) := vecGet_of_lt _ _ _ (by omega)
    have e2 : vecGet iv (i + 1) = .ok (iv.getD (i + 1) 0) := vecGet_of_lt _ _ _ (by omega)
    rw [pointLoop]
    simp only [hi1, if_true, e1, e2, Outcome.bind]
    rw [ih f (i + 2) _ (by omega) (by omega)]
    simp only [Polyline.push, List.range_succ_eq_map, List.map_cons, List.map_map,
      List.append_assoc, List.singleton_append, Nat.mul_zero, Nat.add_zero]
    congr 4
    apply List.map_congr_left
    intro t _
    simp only [Function.comp, Nat.succ_eq_add_one]
    have h1 : i + 2 + 2 * t = i + 2 * (t + 1) := by omega
    rw [h1]


theorem getPathOfMessage_points {F : Type} (D : DoubleOps F) (p k : Nat) (points : List Int)
    (hlen : points.length = 2 * k) :
    ∃ (polyline : Polyline F) (absolute : List Int),
      getPathOfMessage D { decimalprecision := p, points := points } = .ok polyline ∧
      absolute.length = 2 * k ∧
      (1 ≤ k → integerValues points = .ok absolute) ∧
      (∀ j, j < 2 → j < 2 * k → absolute.getD j 0 = points.getD j 0) ∧
      (∀ j, 2 ≤ j → j < 2 * k →
        absolute.getD j 0 = wrap32 (absolute.getD (j - 2) 0 + points.getD j 0)) ∧
      polyline.points = (List.range k).map fun i =>
        ⟨D.div (D.ofInt (absolute.getD (2 * i) 0)) (D.pow10 p),
         D.div (D.ofInt (absolute.getD (2 * i + 1) 0)) (D.pow10 p)⟩ := by
  by_cases hk : k = 0
  · subst hk
    have h0 : points.length = 0 := by omega
    refine ⟨Polyline.create ⟨Color.ofDefaults .White⟩ ⟨D.ofInt 1, Color.ofDefaults .Black⟩, [],
      ?_, rfl, ?_, ?_, ?_, rfl⟩
    · simp only [getPathOfMessage, h0, gt_iff_lt, Nat.lt_irrefl, if_false]
    · intro h
      omega
    · intro j _ h
      omega
    · intro j _ h
      omega
  · obtain ⟨a, ha, hl, hv⟩ := integerValues_ok points k (by omega) hlen
    have hpos : points.length > 0 := by omega
    have hrun := pointLoop_ok D p points.length a hl k points.length 0
      (Polyline.create ⟨Color.ofDefaults .White⟩ ⟨D.ofInt 1, Color.ofDefaults .Black⟩)
      (by omega) (by omega)
    have hget : getPathOfMessage D { decimalprecision := p, points := points }
        = pointLoop D p points.length a points.length 0
          (Polyline.create ⟨Color.ofDefaults .White⟩ ⟨D.ofInt 1, Color.ofDefaults .Black⟩) := by
      simp only [getPathOfMessage, hpos, if_true, ha, Outcome.bind]
    rw [hget, hrun]
    refine ⟨_, a, rfl, by omega, fun _ => ha, ?_, ?_, ?_⟩
    · intro j h2 hj
      rw [hv j (by omega)]
      have : j = 0 ∨ j = 1 := by omega
      rcases this with rfl | rfl <;> rfl
    · intro j h2 hj
      obtain ⟨j0, rfl⟩ : ∃ j0, j = j0 + 2 := ⟨j - 2, by omega⟩
      rw [hv (j0 + 2) (by omega), Nat.add_sub_cancel, hv j0 (by omega)]
      rfl
    · simp [Polyline.create]

/-- C3: for every precision `p` and every point list of even length `2k`,
`getPath` returns a Polyline with exactly `k` points in order, and point `i` is
`(absolute[2i] / 10^p, absolute[2i+1] / 10^p)` in `double` arithmetic. Here
`absolute` is the delta-reconstructed sequence: it has length `2k`, its first
two values are the first two points, and every later value is the value two
slots back plus the point at that index (the `int32_t` sum of the code, which is
the exact sum whenever that fits an `int32_t`); for `k ≥ 1` it is the vector
`integer_values` of the code. -/
theorem getPath_points_scaled {F : Type} (D : DoubleOps F) (parse : List Nat → Bool × Path)
    (data : List Nat) (len p k : Nat) (points : List Int)
    (hparse : (parse (data.take len)).2 = { decimalprecision := p, points := points })
    (hlen : points.length = 2 * k) :
    ∃ (polyline : Polyline F) (absolute : List Int),
      getPath D parse data len = .ok polyline ∧
      polyline.points.length = k ∧
      absolute.length = 2 * k ∧
      (∀ j, j < 2 → j < 2 * k → absolute.getD j 0 = points.getD j 0) ∧
      (∀ j, 2 ≤ j → j < 2 * k →
        absolute.getD j 0 = wrap32 (absolute.getD (j - 2) 0 + points.getD j 0) ∧
        (fits32 (absolute.getD (j - 2) 0 + points.getD j 0) →
          absolute.getD j 0 = absolute.getD (j - 2) 0 + points.getD j 0)) ∧
      (1 ≤ k → integerValues points = .ok absolute) ∧
      polyline.points = (List.range k).map fun i =>
        ⟨D.div (D.ofInt (absolute.getD (2 * i) 0)) (D.pow10 p),
         D.div (D.ofInt (absolute.getD (2 * i + 1) 0)) (D.pow10 p)⟩ := by
  obtain ⟨polyline, absolute, hget, hal, hiv, h01, hrec, hpts⟩ :=
    getPathOfMessage_points D p k points hlen
  refine ⟨polyline, absolute, by simp only [getPath, hparse, hget], ?_, hal, h01, ?_, hiv, hpts⟩
  · rw [hpts]
    simp
  · intro j h2 hj
    refine ⟨hrec j h2 hj, fun hfit => ?_⟩
    rw [hrec j h2 hj, wrap32_of_fits32 hfit]

/-- Witness for C3 with exact arithmetic. Precision 1 and points
`[100, 200, 50, -50]` run the reconstruction loop once and give the points
`(10, 20)` and `(15, 15)`; precision 1 and points `[100, 200]` give the single
point `(10, 20)`. -/
theorem getPath_points_scaled_witness :
    (∃ polyline : Polyline Q,
      getPath exactOps
          (fun _ => (true, { decimalprecision := 1, points := [100, 200, 50, -50] })) [] 0
        = .ok polyline ∧
      polyline.points
        = [⟨exactOps.ofInt 10, exactOps.ofInt 20⟩, ⟨exactOps.ofInt 15, exactOps.ofInt 15⟩]) ∧
    (∃ polyline : Polyline Q,
      getPath exactOps (fun _ => (true, { decimalprecision := 1, points := [100, 200] })) [] 0
        = .ok polyline ∧
      polyline.points = [⟨exactOps.ofInt 10, exactOps.ofInt 20⟩]) := by
  constructor
  · obtain ⟨pl, a, h1, _, _, h01, hrec, _, hpts⟩ := getPath_points_scaled exactOps
      (fun _ => (true, { decimalprecision := 1, points := [100, 200, 50, -50] })) [] 0 1 2
      [100, 200, 50, -50] rfl (by decide)
    have a0 : a.getD 0 0 = 100 := h01 0 (by decide) (by decide)
    have a1 : a.getD 1 0 = 200 := h01 1 (by decide) (by decide)
    have a2 : a.getD 2 0 = 150 := by
      rw [(hrec 2 (by decide) (by decide)).1, a0]
      decide
    have a3 : a.getD 3 0 = 150 := by
      rw [(hrec 3 (by decide) (by decide)).1, a1]
      decide
    refine ⟨pl, h1, ?_⟩
    rw [hpts]
    simp only [List.range, List.range.loop, List.map, Nat.mul_zero, Nat.mul_one, Nat.zero_add,
      a0, a1, a2, a3]
    decide
  · obtain ⟨pl, a, h1, _, _, h01, _, _, hpts⟩ := getPath_points_scaled exactOps
      (fun _ => (true, { decimalprecision := 1, points := [100, 200] })) [] 0 1 1
      [100, 200] rfl (by decide)
    have a0 : a.getD 0 0 = 100 := h01 0 (by decide) (by decide)
    have a1 : a.getD 1 0 = 200 := h01 1 (by decide) (by decide)
    refine ⟨pl, h1, ?_⟩
    rw [hpts]
    simp only [List.range, List.range.loop, List.map, Nat.mul_zero, Nat.zero_add, a0, a1]
    decide

theorem wrap32_sub_cancel (x y : Int) (hy : fits32 y) : wrap32 (wrap32 (x + y) - x) = y := by
  unfold fits32 at hy
  unfold wrap32
  omega

theorem getD_of_mem_fits32 (d : List Int) (hd : ∀ x ∈ d, fits32 x) (j : Nat) (hj : j < d.length) :
    fits32 (d.getD j 0) := by
  have : d.getD j 0 = d[j] := by simp [List.getD, List.getElem?_eq_getElem hj]
  rw [this]
  exact hd _ (List.getElem_mem hj)

/-- C5: round trip. For every point list `d` of even length `2k` (of `int32_t`
values), the absolute sequence `a` that `getPath` reconstructs has length `2k`,
and re-encoding it (`enc[0] = a[0]`, `enc[1] = a[1]`, `enc[j] = a[j] - a[j-2]`)
gives back `d`: always when the subtraction is the `int32_t` one, and with the
subtraction over the integers whenever no sum of the reconstruction left the
`int32_t` range. -/
theorem delta_round_trip (d : List Int) (k : Nat) (hlen : d.length = 2 * k)
    (hd : ∀ x ∈ d, fits32 x) :
    ∃ a, reconstructed d = .ok a ∧ a.length = 2 * k ∧ specReencode32 a = d ∧
      ((∀ j, 2 ≤ j → j < 2 * k → fits32 (a.getD (j - 2) 0 + d.getD j 0)) →
        specReencode a = d) := by
  by_cases hk : k = 0
  · subst hk
    have h0 : d = [] := List.length_eq_zero.mp (by omega)
    subst h0
    exact ⟨[], rfl, rfl, rfl, fun _ => rfl⟩
  · obtain ⟨a, ha, hl, hv⟩ := integerValues_ok d k (by omega) hlen
    have hpos : d.length > 0 := by omega
    refine ⟨a, by simp only [reconstructed, hpos, if_true, ha], by omega, ?_, ?_⟩
    · apply List.ext_getElem?
      intro j
      by_cases hj : j < d.length
      · have hja : j < a.length := by omega
        simp only [specReencode32, List.getElem?_map, List.getElem?_range hja, Option.map_some']
        rw [List.getElem?_eq_getElem hj]
        congr 1
        have hdj : d[j] = d.getD j 0 := by simp [List.getD, List.getElem?_eq_getElem hj]
        rw [hdj]
        by_cases h2 : j < 2
        · simp only [h2, if_true]
          rw [hv j hj]
          have : j = 0 ∨ j = 1 := by omega
          rcases this with rfl | rfl <;> rfl
        · simp only [h2, if_false]
          obtain ⟨j0, rfl⟩ : ∃ j0, j = j0 + 2 := ⟨j - 2, by omega⟩
          rw [hv (j0 + 2) hj, Nat.add_sub_cancel, hv j0 (by omega), absAt]
          exact wrap32_sub_cancel _ _ (getD_of_mem_fits32 d hd _ hj)
      · have hja : ¬ j < a.length := by omega
        simp [specReencode32, List.getElem?_eq_none, Nat.le_of_not_lt hj, Nat.le_of_not_lt hja]
    · intro hfit
      apply List.ext_getElem?
      intro j
      by_cases hj : j < d.length
      · have hja : j < a.length := by omega
        simp only [specReencode, List.getElem?_map, List.getElem?_range hja, Option.map_some']
        rw [List.getElem?_eq_getElem hj]
        congr 1
        have hdj : d[j] = d.getD j 0 := by simp [List.getD, List.getElem?_eq_getElem hj]
        rw [hdj]
        by_cases h2 : j < 2
        · simp only [h2, if_true]
          rw [hv j hj]
          have : j = 0 ∨ j = 1 := by omega
          rcases this with rfl | rfl <;> rfl
        · simp only [h2, if_false]
          obtain ⟨j0, rfl⟩ : ∃ j0, j = j0 + 2 := ⟨j - 2, by omega⟩
          have hf := hfit (j0 + 2) (by omega) (by omega)
          rw [Nat.add_sub_cancel, hv j0 (by omega)] at hf
          rw [hv (j0 + 2) hj, Nat.add_sub_cancel, hv j0 (by omega), absAt, wrap32_of_fits32 hf]
          omega
      · have hja : ¬ j < a.length := by omega
        simp [specReencode, List.getElem?_eq_none, Nat.le_of_not_lt hj, Nat.le_of_not_lt hja]

/-- Witness for C5 at the points `[10, 10, 5, -5]`. -/
theorem delta_round_trip_witness :
    ([(10 : Int), 10, 5, -5].length = 2 * 2 ∧ ∀ x ∈ [(10 : Int), 10, 5, -5], fits32 x) ∧
      ∃ a, reconstructed [10, 10, 5, -5] = .ok a ∧ a.length = 2 * 2 ∧
        specReencode32 a = [10, 10, 5, -5] :=
  have hd : ∀ x ∈ [(10 : Int), 10, 5, -5], fits32 x := by decide
  ⟨⟨by decide, hd⟩,
    (delta_round_trip [10, 10, 5, -5] 2 (by decide) hd).imp fun _ h => ⟨h.1, h.2.1, h.2.2.1⟩⟩

theorem deltaLoop_odd (points : List Int) :
    ∀ (m fuel i : Nat) (iv : List Int), i + 2 * m + 1 = points.length → m + 1 ≤ fuel → 2 ≤ i →
      iv.length = points.length → deltaLoop points fuel i iv = .fault .outOfBounds := by
  intro m
  induction m with
  | zero =>
    intro fuel i iv hi hfuel h2 hlen
    obtain ⟨f, rfl⟩ : ∃ f, fuel = f + 1 := ⟨fuel - 1, by omega⟩
    have hi1 : i < points.length := by omega
    have e1 : vecGet iv (i - 2) = .ok (iv.getD (i - 2) 0) := vecGet_of_lt _ _ _ (by omega)
    have e2 : vecGet points i = .ok (points.getD i 0) := vecGet_of_lt _ _ _ hi1
    have e3 := vecSet_of_lt iv i (wrap32 (iv.getD (i - 2) 0 + points.getD i 0)) (by omega)
    have e4 : vecGet (iv.set i (wrap32 (iv.getD (i - 2) 0 + points.getD i 0))) (i - 1)
        = .ok (iv.getD (i - 1) 0) := by
      rw [vecGet_of_lt _ _ 0 (by simp; omega), getD_set_of_ne _ _ _ _ _ (by omega)]
    have e5 : vecGet points (i + 1) = .fault .outOfBounds := vecGet_of_le _ _ (by omega)
    rw [deltaLoop]
    simp only [hi1, if_true, e1, e2, e3, e4, e5, Outcome.bind]
  | succ m ih =>
    intro fuel i iv hi hfuel h2 hlen
    obtain ⟨f, rfl⟩ : ∃ f, fuel = f + 1 := ⟨fuel - 1, by omega⟩
    have hi1 : i < points.length := by omega
    have hi2 : i + 1 < points.length := by omega
    have e1 : vecGet iv (i - 2) = .ok (iv.getD (i - 2) 0) := vecGet_of_lt _ _ _ (by omega)
    have e2 : vecGet points i = .ok (points.getD i 0) := vecGet_of_lt _ _ _ hi1
    have e3 := vecSet_of_lt iv i (wrap32 (iv.getD (i - 2) 0 + points.getD i 0)) (by omega)
    have e4 : vecGet (iv.set i (wrap32 (iv.getD (i - 2) 0 + points.getD i 0))) (i - 1)
        = .ok (iv.getD (i - 1) 0) := by
      rw [vecGet_of_lt _ _ 0 (by simp; omega), getD_set_of_ne _ _ _ _ _ (by omega)]
    have e5 : vecGet points (i + 1) = .ok (points.getD (i + 1) 0) := vecGet_of_lt _ _ _ hi2
    have e6 := vecSet_of_lt (iv.set i (wrap32 (iv.getD (i - 2) 0 + points.getD i 0))) (i + 1)
      (wrap32 (iv.getD (i - 1) 0 + points.getD (i + 1) 0)) (by simp; omega)
    rw [deltaLoop]
    simp only [hi1, if_true, e1, e2, e3, e4, e5, e6, Outcome.bind]
    exact ih f (i + 2) _ (by omega) (by omega) (by omega) (by simp [hlen])

theorem integerValues_odd (points : List Int) (h : points.length % 2 = 1) :
    integerValues points = .fault .outOfBounds := by
  have e0 : vecGet points 0 = .ok (points.getD 0 0) := vecGet_of_lt _ _ _ (by omega)
  have e2 := vecSet_of_lt (List.replicate points.length (0 : Int)) 0 (points.getD 0 0)
    (by simp; omega)
  by_cases h1 : points.length = 1
  · have e1 : vecGet points 1 = .fault .outOfBounds := vecGet_of_le _ _ (by omega)
    simp only [integerValues, e0, e1, e2, Outcome.bind]
  · have e1 : vecGet points 1 = .ok (points.getD 1 0) := vecGet_of_lt _ _ _ (by omega)
    have e3 := vecSet_of_lt ((List.replicate points.length (0 : Int)).set 0 (points.getD 0 0)) 1
      (points.getD 1 0) (by simp; omega)
    simp only [integerValues, e0, e1, e2, e3, Outcome.bind]
    exact deltaLoop_odd points ((points.length - 3) / 2) points.length 2 _ (by omega) (by omega)
      (by omega) (by simp)

/-- C6 (what the code does): for every message whose point list has odd length,
`getPath` neither rejects the record nor returns a Polyline: its reconstruction
reads `path.points(size)` and writes `integer_values[size]`, one slot past the
end of both, which is the outcome `Fault.outOfBounds` of the embedding. -/
theorem getPath_odd_length_out_of_bounds {F : Type} (D : DoubleOps F)
    (parse : List Nat → Bool × Path) (data : List Nat) (len : Nat)
    (hodd : (parse (data.take len)).2.points.length % 2 = 1) :
    (getPath D parse data len : Outcome (Polyline F)) = .fault .outOfBounds := by
  have hpos : (parse (data.take len)).2.points.length > 0 := by omega
  simp only [getPath, getPathOfMessage, hpos, if_true, integerValues_odd _ hodd, Outcome.bind]

/-- Witness for C6 at a message with the single point value `7`. -/
theorem getPath_odd_length_out_of_bounds_witness :
    ((fun _ => (true, { decimalprecision := 0, points := [7] }) : List Nat → Bool × Path)
        (([] : List Nat).take 0)).2.points.length % 2 = 1 ∧
      (getPath exactOps (fun _ => (true, { decimalprecision := 0, points := [7] })) [] 0
        : Outcome (Polyline Q)) = .fault .outOfBounds :=
  ⟨by decide, getPath_odd_length_out_of_bounds exactOps
    (fun _ => (true, { decimalprecision := 0, points := [7] })) [] 0 (by decide)⟩

/-- C2 (what the code does): on the five-byte varint `80 80 80 80 08`, which is
correctly terminated and encodes `2^31`, `getLength` consumes the five bytes but
returns `0xFFFFFFFF80000000`: the shift `(data & 127) << 28` is done in 32-bit
`int`, overflows to `-2^31` and is sign-extended into the 64-bit result. No shift
count reaches 32 on this input, so the result does not depend on `wide`. -/
theorem getLength_five_byte_varint_sign_extended (wide : Nat → Nat → Int) :
    isVarint [128, 128, 128, 128, 8] = true ∧
      varintValue [128, 128, 128, 128, 8] = 2147483648 ∧
      getLength wide { rest := [128, 128, 128, 128, 8], pos := 0 }
        = (18446744071562067968, { rest := [], pos := 5 }) := by
  refine ⟨by decide, by decide, ?_⟩
  simp +decide [getLength, getLengthLoop, zip_fread, shiftInt, wrap32, toUInt64]

theorem getLengthLoop_varint (wide : Nat → Nat → Int) :
    ∀ (hdr : List Nat) (fuel i data len : Nat) (rest : List Nat) (p q : Nat),
      isVarint hdr = true → hdr.length ≤ fuel → i + hdr.length ≤ 16 →
      getLengthLoop wide fuel i data len { rest := hdr ++ rest, pos := p }
        = ((getLengthLoop wide fuel i data len { rest := hdr, pos := q }).1,
            { rest := rest, pos := p + hdr.length }) := by
  intro hdr
  induction hdr with
  | nil => intro fuel i data len rest p q h; simp [isVarint] at h
  | cons b bs ih =>
    intro fuel i data len rest p q hv hfuel hi
    obtain ⟨f, rfl⟩ : ∃ f, fuel = f + 1 := ⟨fuel - 1, by simp at hfuel; omega⟩
    have hi16 : i < 16 := by simp at hi; omega
    cases bs with
    | nil =>
      have hb : b &&& 128 = 0 := by simpa [isVarint] using hv
      simp [getLengthLoop, zip_fread, hi16, hb]
    | cons c cs =>
      have hb : ¬ (b &&& 128 = 0) := by
        have := hv
        simp [isVarint] at this
        exact this.1
      have hv2 : isVarint (c :: cs) = true := by
        have := hv
        simp [isVarint] at this
        exact this.2
      have h1 := ih f (i + 1) b (len ||| toUInt64 (shiftInt wide (b &&& 127) (7 * i))) rest (p + 1)
        (q + 1) hv2 (by simp at hfuel ⊢; omega) (by simp at hi ⊢; omega)
      simp only [getLengthLoop, zip_fread, hi16, if_true, hb, if_false, List.take, List.drop,
        List.cons_append, List.length_cons, List.length_nil, List.length_singleton] at h1 ⊢
      have hp : p + (0 + 1) = p + 1 := by omega
      have hq : q + (0 + 1) = q + 1 := by omega
      rw [hp, hq]
      show getLengthLoop wide f (i + 1) b _ { rest := c :: (cs ++ rest), pos := p + 1 } = _
      rw [h1]
      congr 2
      omega

theorem getLength_varint (wide : Nat → Nat → Int) (hdr rest : List Nat) (p : Nat)
    (hv : isVarint hdr = true) (h16 : hdr.length ≤ 16) :
    getLength wide { rest := hdr ++ rest, pos := p }
      = ((getLength wide { rest := hdr, pos := 0 }).1, { rest := rest, pos := p + hdr.length }) :=
  getLengthLoop_varint wide hdr 16 0 0 0 rest p 0 hv h16 (by omega)

theorem getData_exact (payload rest : List Nat) (p : Nat) (h : payload.length < 2147483648) :
    getData { rest := payload ++ rest, pos := p } (toInt32 payload.length)
      = .ok (payload, { rest := rest, pos := p + payload.length }) := by
  have hconv : toInt32 payload.length = (payload.length : Int) := by
    unfold toInt32 wrap32
    omega
  have hneg : ¬ ((payload.length : Int) < 0) := by omega
  simp [getData, hconv, hneg, zip_fread]

theorem readFileLoop_records {F : Type} (D : DoubleOps F) (wide : Nat → Nat → Int)
    (parse : List Nat → Bool × Path) (term tail : List Nat)
    (hterm : isVarint term = true ∧ term.length ≤ 16 ∧
      (getLength wide { rest := term, pos := 0 }).1 = 0) :
    ∀ (recs : List WireRecord) (lines acc : List (Polyline F)) (fuel p : Nat),
      (∀ r ∈ recs, r.announced wide) →
      List.Forall₂ (fun r line => getPath D parse r.payload r.payload.length = .ok line)
        recs lines →
      recs.length + 1 ≤ fuel →
      readFileLoop D wide parse fuel
          { rest := wireBytes recs ++ (term ++ tail), pos := p } acc
        = .ok (acc ++ lines, { rest := tail, pos := p + wireSize recs + term.length }) := by
  intro recs
  induction recs with
  | nil =>
    intro lines acc fuel p _ hdec hfuel
    obtain ⟨f, rfl⟩ : ∃ f, fuel = f + 1 := ⟨fuel - 1, by simp at hfuel; omega⟩
    cases hdec
    have hl := getLength_varint wide term tail p hterm.1 hterm.2.1
    rw [hterm.2.2] at hl
    simp [readFileLoop, wireBytes, wireSize, hl]
  | cons r rs ih =>
    intro lines acc fuel p hrec hdec hfuel
    obtain ⟨f, rfl⟩ : ∃ f, fuel = f + 1 := ⟨fuel - 1, by simp at hfuel; omega⟩
    cases hdec with
    | cons hline hrest =>
      rename_i line lines
      obtain ⟨hv, h16, hlen, hne, hlt⟩ := hrec r (List.mem_cons_self _ _)
      have hl := getLength_varint wide r.header (r.payload ++ (wireBytes rs ++ (term ++ tail))) p
        hv h16
      rw [hlen] at hl
      have hd := getData_exact r.payload (wireBytes rs ++ (term ++ tail)) (p + r.header.length) hlt
      have hu : toUInt32 r.payload.length = r.payload.length := by
        unfold toUInt32
        omega
      have hstep : readFileLoop D wide parse (f + 1)
          { rest := wireBytes (r :: rs) ++ (term ++ tail), pos := p } acc
          = readFileLoop D wide parse f
            { rest := wireBytes rs ++ (term ++ tail),
              pos := p + r.header.length + r.payload.length } (acc ++ [line]) := by
        rw [readFileLoop]
        have hw : wireBytes (r :: rs) ++ (term ++ tail)
            = r.header ++ (r.payload ++ (wireBytes rs ++ (term ++ tail))) := by
          simp only [wireBytes, List.append_assoc]
        rw [hw, hl]
        simp only [hne, if_false]
        rw [hd]
        simp only [Outcome.bind, hu, hline]
      rw [hstep, ih lines (acc ++ [line]) f _ (fun x hx => hrec x (List.mem_cons_of_mem _ hx)) hrest
        (by simp at hfuel; omega)]
      have hpos : p + r.header.length + r.payload.length + wireSize rs + term.length
          = p + wireSize (r :: rs) + term.length := by
        simp only [wireSize]
        omega
      rw [hpos, List.append_assoc, List.singleton_append]

theorem wireBytes_length_ge (wide : Nat → Nat → Int) :
    ∀ recs : List WireRecord, (∀ r ∈ recs, r.announced wide) →
      recs.length ≤ (wireBytes recs).length := by
  intro recs
  induction recs with
  | nil => intro _; simp
  | cons r rs ih =>
    intro h
    have h1 := ih (fun x hx => h x (List.mem_cons_of_mem _ hx))
    have h2 := (h r (List.mem_cons_self _ _)).2.2.2.1
    simp only [wireBytes, List.length_cons, List.length_append]
    omega

/-- C4: for every entry stream made of `m ≥ 0` records with non-zero announced
length (each payload decoding to a Polyline) followed by a record of announced
length 0 and by arbitrary further bytes, `read_file` returns exactly the `m`
Polylines, the `i`-th being `getPath` of the `i`-th payload, in record order; the
zero-length record adds no Polyline and the read cursor stops right behind it,
so nothing of the further bytes is read. -/
theorem read_file_records {F : Type} (D : DoubleOps F) (wide : Nat → Nat → Int)
    (parse : List Nat → Bool × Path) (recs : List WireRecord) (term tail : List Nat)
    (lines : List (Polyline F)) (p : Nat)
    (hrecs : ∀ r ∈ recs, r.announced wide)
    (hterm : isVarint term = true ∧ term.length ≤ 16 ∧
      (getLength wide { rest := term, pos := 0 }).1 = 0)
    (hdec : List.Forall₂
      (fun r line => getPath D parse r.payload r.payload.length = .ok line) recs lines) :
    read_file D wide parse { rest := wireBytes recs ++ (term ++ tail), pos := p }
        = .ok (lines, { rest := tail, pos := p + wireSize recs + term.length }) ∧
      lines.length = recs.length := by
  refine ⟨?_, hdec.length_eq.symm⟩
  have hlen := wireBytes_length_ge wide recs hrecs
  have := readFileLoop_records D wide parse term tail hterm recs lines [] 
    ((wireBytes recs ++ (term ++ tail)).length + 1) p hrecs hdec
    (by simp only [List.length_append]; omega)
  simpa [read_file] using this


/-- Witness for C4: the stream `[3, b1 b2 b3][0]` followed by one more byte yields
exactly one Polyline and the cursor stops at 5, before the extra byte. -/
theorem read_file_records_witness :
    (∀ r ∈ [({ header := [3], payload := [1, 2, 3] } : WireRecord)],
        r.announced (fun _ _ => 0)) ∧
      read_file exactOps (fun _ _ => 0)
          (fun _ => (true, { decimalprecision := 0, points := [10, 10, 5, -5] }))
          { rest := [3, 1, 2, 3, 0, 99], pos := 0 }
        = .ok ([{ points := [⟨exactOps.ofInt 10, exactOps.ofInt 10⟩,
                    ⟨exactOps.ofInt 15, exactOps.ofInt 5⟩],
                  fill := ⟨Color.ofDefaults .White⟩,
                  stroke := ⟨exactOps.ofInt 1, Color.ofDefaults .Black⟩ }],
               { rest := [99], pos := 5 }) :=
  ⟨by decide,
    (read_file_records exactOps (fun _ _ => 0)
      (fun _ => (true, { decimalprecision := 0, points := [10, 10, 5, -5] }))
      [{ header := [3], payload := [1, 2, 3] }] [0] [99] _ 0 (by decide) (by decide)
      (List.Forall₂.cons (by decide) List.Forall₂.nil)).1⟩


/-- C7: for every layout and coordinate, `translateX` is
`(origin_offset.x + x) * scale` for the left origins and
`width - (x + origin_offset.x) * scale` for the right origins, and `translateY` is
`(origin_offset.y + y) * scale` for the top origins and
`height - (y + origin_offset.y) * scale` for the bottom origins. -/
theorem translate_by_origin {F : Type} (D : DoubleOps F) (layout : Layout F) (x y : F) :
    translateX D x layout =
        (match layout.origin with
          | .TopLeft | .BottomLeft => D.mul (D.add layout.origin_offset.x x) layout.scale
          | .TopRight | .BottomRight =>
            D.sub layout.dimensions.width (D.mul (D.add x layout.origin_offset.x) layout.scale)) ∧
      translateY D y layout =
        (match layout.origin with
          | .TopLeft | .TopRight => D.mul (D.add layout.origin_offset.y y) layout.scale
          | .BottomLeft | .BottomRight =>
            D.sub layout.dimensions.height
              (D.mul (D.add y layout.origin_offset.y) layout.scale)) := by
  cases h : layout.origin <;> simp [translateX, translateY, h]

theorem pointsLoop_eq {F : Type} (D : DoubleOps F) (layout : Layout F) (points : List (Point F)) :
    ∀ (fuel i : Nat) (ss : String), points.length ≤ i + fuel →
      Polyline.pointsLoop D layout points fuel i ss
        = ss ++ concatAll ((points.drop i).map (pointText D layout)) := by
  intro fuel
  induction fuel with
  | zero =>
    intro i ss h
    have : points.drop i = [] := List.drop_eq_nil_of_le (by omega)
    simp [Polyline.pointsLoop, this, concatAll]
  | succ f ih =>
    intro i ss h
    by_cases hi : i < points.length
    · have hd : points.drop i = points[i] :: points.drop (i + 1) := List.drop_eq_getElem_cons hi
      rw [Polyline.pointsLoop]
      simp only [List.get?_eq_getElem?, List.getElem?_eq_getElem hi]
      rw [ih (i + 1) _ (by omega), hd]
      simp only [List.map_cons, concatAll, pointText, String.append_assoc]
    · have : points.drop i = [] := List.drop_eq_nil_of_le (by omega)
      rw [Polyline.pointsLoop]
      simp [List.getElem?_eq_none (Nat.le_of_not_lt hi), this, concatAll]


/-- C8: for every layout and Polyline, `Polyline::toString` is one `polyline`
element whose `points` attribute is the concatenation, in point order, of
`X,Y ` with `X = translateX(x)` and `Y = translateY(y)`, followed by the fill and
stroke attributes; under a top-left layout built by
`Layout(dimensions, TopLeft)` (scale 1, zero offset) the rendered coordinates
are the points' own, for all points on which `(0 + c) * 1 = c` holds in `double`. -/
theorem polyline_toString_points {F : Type} (D : DoubleOps F) (p : Polyline F)
    (layout : Layout F) (dimensions : Dimensions F) :
    Polyline.toString D p layout
        = "\t<polyline points=\""
          ++ concatAll (p.points.map fun pt =>
              D.fmt (translateX D pt.x layout) ++ "," ++ D.fmt (translateY D pt.y layout) ++ " ")
          ++ "\" " ++ p.fill.toString ++ Stroke.toString D p.stroke layout ++ "/>\n" ∧
      ((∀ pt ∈ p.points, D.mul (D.add (D.ofInt 0) pt.x) (D.ofInt 1) = pt.x ∧
          D.mul (D.add (D.ofInt 0) pt.y) (D.ofInt 1) = pt.y) →
        Polyline.toString D p (Layout.ofDimensions D dimensions .TopLeft)
          = "\t<polyline points=\""
            ++ concatAll (p.points.map fun pt => D.fmt pt.x ++ "," ++ D.fmt pt.y ++ " ")
            ++ "\" " ++ p.fill.toString
            ++ Stroke.toString D p.stroke (Layout.ofDimensions D dimensions .TopLeft)
            ++ "/>\n") := by
  have hgen : ∀ layout : Layout F, Polyline.toString D p layout
      = "\t<polyline points=\""
        ++ concatAll (p.points.map fun pt =>
            D.fmt (translateX D pt.x layout) ++ "," ++ D.fmt (translateY D pt.y layout) ++ " ")
        ++ "\" " ++ p.fill.toString ++ Stroke.toString D p.stroke layout ++ "/>\n" := by
    intro layout
    have hloop := pointsLoop_eq D layout p.points p.points.length 0
      (elemStart "polyline" ++ "points=\"") (by omega)
    simp only [Polyline.toString, hloop, List.drop_zero]
    apply String.ext
    simp only [elemStart, emptyElemEnd, String.data_append, List.append_assoc]
    rfl
  refine ⟨hgen layout, fun hpts => ?_⟩
  rw [hgen]
  have hmap : (p.points.map fun pt =>
        D.fmt (translateX D pt.x (Layout.ofDimensions D dimensions .TopLeft)) ++ ","
          ++ D.fmt (translateY D pt.y (Layout.ofDimensions D dimensions .TopLeft)) ++ " ")
      = p.points.map fun pt => D.fmt pt.x ++ "," ++ D.fmt pt.y ++ " " := by
    apply List.map_congr_left
    intro pt hpt
    have h := hpts pt hpt
    simp only [translateX, translateY, Layout.ofDimensions] at h ⊢
    simp [h.1, h.2]
  rw [hmap]

/-- Witness for C8 with exact arithmetic: under the layout of `main`
(top-left, dimensions 592 by 864) the points `(0,0)`, `(10,10)` are written as
`points="0,0 10,10 "`. -/
theorem polyline_toString_points_witness :
    (∀ pt ∈ [(⟨exactOps.ofInt 0, exactOps.ofInt 0⟩ : Point Q),
          ⟨exactOps.ofInt 10, exactOps.ofInt 10⟩],
        exactOps.mul (exactOps.add (exactOps.ofInt 0) pt.x) (exactOps.ofInt 1) = pt.x ∧
          exactOps.mul (exactOps.add (exactOps.ofInt 0) pt.y) (exactOps.ofInt 1) = pt.y) ∧
      Polyline.toString exactOps
          { points := [⟨exactOps.ofInt 0, exactOps.ofInt 0⟩,
              ⟨exactOps.ofInt 10, exactOps.ofInt 10⟩],
            fill := ⟨Color.ofDefaults .White⟩,
            stroke := ⟨exactOps.ofInt 1, Color.ofDefaults .Black⟩ }
          (Layout.ofDimensions exactOps ⟨exactOps.ofInt 592, exactOps.ofInt 864⟩ .TopLeft)
        = "\t<polyline points=\"0,0 10,10 \" fill=\"rgb(255,255,255)\" stroke-width=\"1\" stroke=\"rgb(0,0,0)\" />\n" := by
  have hpts : ∀ pt ∈ [(⟨exactOps.ofInt 0, exactOps.ofInt 0⟩ : Point Q),
        ⟨exactOps.ofInt 10, exactOps.ofInt 10⟩],
      exactOps.mul (exactOps.add (exactOps.ofInt 0) pt.x) (exactOps.ofInt 1) = pt.x ∧
        exactOps.mul (exactOps.add (exactOps.ofInt 0) pt.y) (exactOps.ofInt 1) = pt.y := by
    decide
  refine ⟨hpts, ?_⟩
  rw [(polyline_toString_points exactOps
    { points := [⟨exactOps.ofInt 0, exactOps.ofInt 0⟩, ⟨exactOps.ofInt 10, exactOps.ofInt 10⟩],
      fill := ⟨Color.ofDefaults .White⟩,
      stroke := ⟨exactOps.ofInt 1, Color.ofDefaults .Black⟩ }
    (Layout.ofDimensions exactOps ⟨exactOps.ofInt 592, exactOps.ofInt 864⟩ .TopLeft)
    ⟨exactOps.ofInt 592, exactOps.ofInt 864⟩).2 hpts]
  decide


theorem document_header_eq (a b c : String) :
    "<?xml " ++ attributeStr "version" "1.0" "" ++ attributeStr "standalone" "no" ""
        ++ "?>\n<!DOCTYPE svg PUBLIC \"-//W3C//DTD SVG 1.1//EN\" "
        ++ "\"http://www.w3.org/Graphics/SVG/1.1/DTD/svg11.dtd\">\n<svg "
        ++ attributeStr "width" a "px"
        ++ attributeStr "height" b "px"
        ++ attributeStr "xmlns" "http://www.w3.org/2000/svg" ""
        ++ attributeStr "version" "1.1" "" ++ ">\n"
        ++ c ++ elemEnd "svg"
      = "<?xml version=\"1.0\" standalone=\"no\" ?>\n<!DOCTYPE svg PUBLIC \"-//W3C//DTD SVG 1.1//EN\" \"http://www.w3.org/Graphics/SVG/1.1/DTD/svg11.dtd\">\n<svg width=\""
        ++ a ++ "px\" height=\"" ++ b
        ++ "px\" xmlns=\"http://www.w3.org/2000/svg\" version=\"1.1\" >\n" ++ c ++ "</svg>\n" := by
  apply String.ext
  simp only [attributeStr, elemEnd, String.data_append, List.append_assoc]
  rfl

theorem foldl_shl {F : Type} (shapes : List (Layout F → String)) :
    ∀ doc : Document F,
      (shapes.foldl Document.shl doc).body_nodes_str
          = doc.body_nodes_str ++ concatAll (shapes.map fun s => s doc.layout) ∧
        (shapes.foldl Document.shl doc).layout = doc.layout ∧
        (shapes.foldl Document.shl doc).file_name = doc.file_name := by
  induction shapes with
  | nil =>
    intro doc
    refine ⟨?_, rfl, rfl⟩
    apply String.ext
    simp [concatAll]
  | cons s ss ih =>
    intro doc
    obtain ⟨h1, h2, h3⟩ := ih (doc.shl s)
    simp only [List.foldl_cons, h1, h2, h3]
    refine ⟨?_, rfl, rfl⟩
    simp only [Document.shl, List.map_cons, concatAll, String.append_assoc]

/-- C9: for every Document created with file name `file_name` and layout `L` and
every sequence of shapes appended with `operator<<`, `Document::toString` is the
fixed header (XML declaration, SVG 1.1 doctype, `svg` start tag with the width
and height of `L` in px, namespace and version 1.1), then the shapes'
`toString(L)` in append order, then the `svg` end tag; the appends leave layout
and file name unchanged and each append only adds its fragment behind the
earlier ones. When the dimensions print as `592` and `864` the root carries
`width="592px" height="864px"`. -/
theorem document_toString_layout {F : Type} (D : DoubleOps F) (file_name : String)
    (L : Layout F) (shapes : List (Layout F → String)) :
    Document.toString D (shapes.foldl Document.shl (Document.create file_name L))
        = "<?xml version=\"1.0\" standalone=\"no\" ?>\n<!DOCTYPE svg PUBLIC \"-//W3C//DTD SVG 1.1//EN\" \"http://www.w3.org/Graphics/SVG/1.1/DTD/svg11.dtd\">\n<svg width=\""
          ++ D.fmt L.dimensions.width ++ "px\" height=\"" ++ D.fmt L.dimensions.height
          ++ "px\" xmlns=\"http://www.w3.org/2000/svg\" version=\"1.1\" >\n"
          ++ concatAll (shapes.map fun s => s L) ++ "</svg>\n" ∧
      (shapes.foldl Document.shl (Document.create file_name L)).layout = L ∧
      (shapes.foldl Document.shl (Document.create file_name L)).file_name = file_name ∧
      (∀ (doc : Document F) (s : Layout F → String),
        (doc.shl s).body_nodes_str = doc.body_nodes_str ++ s doc.layout ∧
          (doc.shl s).layout = doc.layout ∧ (doc.shl s).file_name = doc.file_name) ∧
      (D.fmt L.dimensions.width = "592" → D.fmt L.dimensions.height = "864" →
        Document.toString D (shapes.foldl Document.shl (Document.create file_name L))
          = "<?xml version=\"1.0\" standalone=\"no\" ?>\n<!DOCTYPE svg PUBLIC \"-//W3C//DTD SVG 1.1//EN\" \"http://www.w3.org/Graphics/SVG/1.1/DTD/svg11.dtd\">\n<svg width=\"592px\" height=\"864px\" xmlns=\"http://www.w3.org/2000/svg\" version=\"1.1\" >\n"
            ++ concatAll (shapes.map fun s => s L) ++ "</svg>\n") := by
  obtain ⟨h1, h2, h3⟩ := foldl_shl shapes (Document.create file_name L)
  have hbody : (shapes.foldl Document.shl (Document.create file_name L)).body_nodes_str
      = concatAll (shapes.map fun s => s L) := by
    rw [h1]
    apply String.ext
    simp [Document.create]
  have hmain : Document.toString D (shapes.foldl Document.shl (Document.create file_name L))
      = "<?xml version=\"1.0\" standalone=\"no\" ?>\n<!DOCTYPE svg PUBLIC \"-//W3C//DTD SVG 1.1//EN\" \"http://www.w3.org/Graphics/SVG/1.1/DTD/svg11.dtd\">\n<svg width=\""
        ++ D.fmt L.dimensions.width ++ "px\" height=\"" ++ D.fmt L.dimensions.height
        ++ "px\" xmlns=\"http://www.w3.org/2000/svg\" version=\"1.1\" >\n"
        ++ concatAll (shapes.map fun s => s L) ++ "</svg>\n" := by
    have hl : (shapes.foldl Document.shl (Document.create file_name L)).layout = L := h2
    simp only [Document.toString, hbody, hl]
    exact document_header_eq _ _ _
  refine ⟨hmain, h2, h3, fun doc s => ⟨rfl, rfl, rfl⟩, fun hw hh => ?_⟩
  rw [hmain, hw, hh]
  apply String.ext
  simp only [String.data_append, List.append_assoc]
  rfl

/-- Witness for C9 with exact arithmetic: the Document of `main` (dimensions
592 by 864, top-left) after one Polyline has been appended. -/
theorem document_toString_layout_witness :
    (exactOps.fmt (Layout.ofDimensions exactOps
          ⟨exactOps.ofInt 592, exactOps.ofInt 864⟩ .TopLeft).dimensions.width = "592" ∧
        exactOps.fmt (Layout.ofDimensions exactOps
          ⟨exactOps.ofInt 592, exactOps.ofInt 864⟩ .TopLeft).dimensions.height = "864") ∧
      Document.toString exactOps
          ([fun _ => "\t<polyline points=\"\" />\n"].foldl Document.shl
            (Document.create "out.svg" (Layout.ofDimensions exactOps
              ⟨exactOps.ofInt 592, exactOps.ofInt 864⟩ .TopLeft)))
        = "<?xml version=\"1.0\" standalone=\"no\" ?>\n<!DOCTYPE svg PUBLIC \"-//W3C//DTD SVG 1.1//EN\" \"http://www.w3.org/Graphics/SVG/1.1/DTD/svg11.dtd\">\n<svg width=\"592px\" height=\"864px\" xmlns=\"http://www.w3.org/2000/svg\" version=\"1.1\" >\n"
          ++ concatAll ([fun _ => "\t<polyline points=\"\" />\n"].map fun s =>
              s (Layout.ofDimensions exactOps ⟨exactOps.ofInt 592, exactOps.ofInt 864⟩ .TopLeft))
          ++ "</svg>\n" :=
  ⟨⟨by decide, by decide⟩,
    (document_toString_layout exactOps "out.svg"
      (Layout.ofDimensions exactOps ⟨exactOps.ofInt 592, exactOps.ofInt 864⟩ .TopLeft)
      [fun _ => "\t<polyline points=\"\" />\n"]).2.2.2.2 (by decide) (by decide)⟩


theorem findFrom_isSome_iff (pat : List Char) :
    ∀ (s : List Char) (pos : Nat), (findFrom pat s pos).isSome = true ↔ pat <:+: s := by
  intro s
  induction s with
  | nil =>
    intro pos
    cases pat <;> simp [findFrom, List.isPrefixOf]
  | cons c cs ih =>
    intro pos
    rw [findFrom, List.infix_cons_iff, ← ih (pos + 1)]
    by_cases hp : pat.isPrefixOf (c :: cs) = true
    · simp only [hp, if_true, Option.isSome_some, true_iff]
      exact Or.inl (List.isPrefixOf_iff_prefix.mp hp)
    · simp only [hp, if_false, Bool.false_eq_true]
      constructor
      · exact Or.inr
      · rintro (h | h)
        · exact absurd (List.isPrefixOf_iff_prefix.mpr h) hp
        · exact h

/-- C10 fails as stated: the entry `sections/media/a.protobuf.bak` does not end
with `.protobuf`, yet the scan of `main` selects it for decoding. -/
theorem isMediaEntry_protobuf_bak_selected :
    isMediaEntry "sections/media/a.protobuf.bak" = true ∧
      ¬ (".protobuf".data <:+ "sections/media/a.protobuf.bak".data) := by
  decide

/-- C10 as amended: for every entry name, the scan of `main` selects the entry
for decoding if and only if the name contains `.protobuf` somewhere and contains
`sections/media` somewhere. -/
theorem isMediaEntry_iff_contains (file_name : String) :
    isMediaEntry file_name = true ↔
      ".protobuf".data <:+: file_name.data ∧ "sections/media".data <:+: file_name.data := by
  simp only [isMediaEntry, find, Bool.and_eq_true, findFrom_isSome_iff]


theorem getLengthLoop_at_end (wide : Nat → Nat → Int) :
    ∀ (fuel i data len p : Nat),
      (getLengthLoop wide fuel i data len { rest := [], pos := p }).2 = { rest := [], pos := p } := by
  intro fuel
  induction fuel with
  | zero => intro i data len p; rfl
  | succ f ih =>
    intro i data len p
    rw [getLengthLoop]
    by_cases hi : i < 16
    · simp only [hi, if_true, zip_fread, List.take_nil, List.drop_nil, List.length_nil,
        Nat.add_zero]
      split
      · rfl
      · exact ih _ _ _ _
    · simp only [hi, if_false]

theorem getLengthLoop_all_continued (wide : Nat → Nat → Int) :
    ∀ (bs : List Nat) (fuel i data len : Nat) (rest : List Nat) (p : Nat),
      (∀ b ∈ bs, b &&& 128 ≠ 0) → bs.length ≤ fuel → i + bs.length ≤ 16 →
      ∃ data1 len1, getLengthLoop wide fuel i data len { rest := bs ++ rest, pos := p }
        = getLengthLoop wide (fuel - bs.length) (i + bs.length) data1 len1
            { rest := rest, pos := p + bs.length } := by
  intro bs
  induction bs with
  | nil =>
    intro fuel i data len rest p _ _ _
    exact ⟨data, len, rfl⟩
  | cons b bs ih =>
    intro fuel i data len rest p hb hfuel hi
    obtain ⟨f, rfl⟩ : ∃ f, fuel = f + 1 := ⟨fuel - 1, by simp at hfuel; omega⟩
    have hi16 : i < 16 := by simp at hi; omega
    have hb0 : ¬ (b &&& 128 = 0) := hb b (List.mem_cons_self _ _)
    obtain ⟨d1, l1, h1⟩ := ih f (i + 1) b
      (len ||| toUInt64 (shiftInt wide (b &&& 127) (7 * i))) rest (p + 1)
      (fun x hx => hb x (List.mem_cons_of_mem _ hx)) (by simp at hfuel; omega)
      (by simp at hi ⊢; omega)
    refine ⟨d1, l1, ?_⟩
    rw [getLengthLoop]
    simp only [hi16, if_true, zip_fread, List.cons_append, List.take, List.drop,
      List.length_cons, List.length_nil, hb0, if_false]
    have e1 : p + (0 + 1) = p + 1 := by omega
    have e2 : f + 1 - (bs.length + 1) = f - bs.length := by omega
    have e3 : i + (bs.length + 1) = i + 1 + bs.length := by omega
    have e4 : p + (bs.length + 1) = p + 1 + bs.length := by omega
    rw [e1, e2, e3, e4]
    exact h1

/-- C11 fails as stated: on the empty stream `getLength` returns to its caller as
on any other stream, with the length `0` taken from its zero-initialised byte,
the same value as for the terminator record `00`; and on the stream `85`
followed by the end of the stream (a continuation byte and nothing behind it) it
returns a non-zero length, built from the stale byte `85`, with the cursor
behind that one byte. The turns 5 to 15 of the second run shift by 35 or more,
which C++ leaves undefined; they can only add bits to the length. -/
theorem getLength_exhausted_returns_length :
    getLength (fun _ _ => 0) { rest := [], pos := 0 } = (0, { rest := [], pos := 0 }) ∧
      (getLength (fun _ _ => 0) { rest := [0], pos := 0 }).1 = 0 ∧
      (getLength (fun _ _ => 0) { rest := [133], pos := 0 }).2 = { rest := [], pos := 1 } ∧
      (getLength (fun _ _ => 0) { rest := [133], pos := 0 }).1 ≠ 0 := by
  decide

/-- C11 as amended: if the stream is exhausted before `getLength` has read a byte
with a clear high bit, `getLength` reports nothing; it consumes exactly the bytes
that remained and returns a length to its caller as usual, and when no byte
remained at all that length is `0`. -/
theorem getLength_exhausted (wide : Nat → Nat → Int) (file : ZipFile)
    (hcont : ∀ b ∈ file.rest, b &&& 128 ≠ 0) (hshort : file.rest.length < 16) :
    (getLength wide file).2 = { rest := [], pos := file.pos + file.rest.length } ∧
      (file.rest = [] → (getLength wide file).1 = 0) := by
  obtain ⟨rest, p⟩ := file
  simp only at hcont hshort ⊢
  constructor
  · obtain ⟨d1, l1, h1⟩ := getLengthLoop_all_continued wide rest 16 0 0 0 [] p hcont
      (by omega) (by omega)
    rw [List.append_nil] at h1
    rw [getLength, h1]
    exact getLengthLoop_at_end wide _ _ _ _ _
  · intro h
    subst h
    simp +decide [getLength, getLengthLoop, zip_fread, shiftInt, wrap32, toUInt64]

/-- Witness for C11 as amended on the stream `85 81` followed by the end of the
stream. -/
theorem getLength_exhausted_witness :
    ((∀ b ∈ [133, 129], b &&& 128 ≠ 0) ∧ [133, 129].length < 16) ∧
      (getLength (fun _ _ => 0) { rest := [133, 129], pos := 7 }).2
        = { rest := [], pos := 7 + 2 } :=
  ⟨⟨by decide, by decide⟩,
    (getLength_exhausted (fun _ _ => 0) { rest := [133, 129], pos := 7 }
      (by decide) (by decide)).1⟩


/-- C12 fails as stated: with two bytes left and four asked for, `getData` reports
nothing and returns a four-byte buffer whose last two bytes were not read from
the stream (they are the zeros of `calloc`). -/
theorem getData_short_stream_zero_padded :
    getData { rest := [1, 2], pos := 0 } 4 = .ok ([1, 2, 0, 0], { rest := [], pos := 2 }) := by
  decide

/-- C12 as amended: for every stream and byte count `n ≥ 0`, `getData` returns a
buffer of exactly `n` bytes and reports nothing; the buffer holds exactly the
next `n` bytes of the stream when at least `n` remain, and otherwise the bytes
that remain followed by zero bytes; the cursor advances by the bytes read. -/
theorem getData_buffer (file : ZipFile) (n : Nat) :
    ∃ buff, getData file (n : Int)
        = .ok (buff, { rest := file.rest.drop n, pos := file.pos + min n file.rest.length }) ∧
      buff.length = n ∧
      buff = file.rest.take n ++ List.replicate (n - file.rest.length) 0 ∧
      (n ≤ file.rest.length → buff = file.rest.take n) := by
  have hneg : ¬ ((n : Int) < 0) := by omega
  refine ⟨file.rest.take n ++ List.replicate (n - file.rest.length) 0, ?_, ?_, rfl, ?_⟩
  · simp only [getData, hneg, if_false, zip_fread, Int.toNat_ofNat, List.length_take]
    congr 4
    omega
  · simp only [List.length_append, List.length_take, List.length_replicate]
    omega
  · intro h
    have : n - file.rest.length = 0 := by omega
    rw [this, List.replicate_zero, List.append_nil]

theorem getLengthLoop_consumed (wide : Nat → Nat → Int) :
    ∀ (fuel i data len : Nat) (file : ZipFile),
      ∃ n, n ≤ fuel ∧ n ≤ file.rest.length ∧
        (getLengthLoop wide fuel i data len file).2
          = { rest := file.rest.drop n, pos := file.pos + n } := by
  intro fuel
  induction fuel with
  | zero =>
    intro i data len file
    exact ⟨0, Nat.le_refl _, Nat.zero_le _, rfl⟩
  | succ f ih =>
    intro i data len file
    obtain ⟨rest, p⟩ := file
    rw [getLengthLoop]
    by_cases hi : i < 16
    · simp only [hi, if_true]
      cases rest with
      | nil =>
        refine ⟨0, Nat.zero_le _, Nat.zero_le _, ?_⟩
        simp only [zip_fread, List.take_nil, List.drop_nil, List.length_nil, Nat.add_zero]
        split
        · rfl
        · exact getLengthLoop_at_end wide _ _ _ _ _
      | cons b t =>
        simp only [zip_fread, List.take, List.drop, List.length_cons, List.length_nil]
        split
        · exact ⟨1, by omega, by simp, rfl⟩
        · obtain ⟨n, h1, h2, h3⟩ := ih (i + 1) b
            (len ||| toUInt64 (shiftInt wide (b &&& 127) (7 * i))) { rest := t, pos := p + (0 + 1) }
          refine ⟨n + 1, by omega, by simp at h2 ⊢; omega, ?_⟩
          rw [h3]
          simp only [List.drop_succ_cons]
          congr 1
          omega
    · simp only [hi, if_false]
      exact ⟨0, Nat.zero_le _, Nat.zero_le _, rfl⟩

theorem isVarint_append_clear :
    ∀ (pre : List Nat) (b : Nat), (∀ x ∈ pre, x &&& 128 ≠ 0) → b &&& 128 = 0 →
      isVarint (pre ++ [b]) = true := by
  intro pre
  induction pre with
  | nil => intro b _ hb; simp [isVarint, hb]
  | cons a t ih =>
    intro b hpre hb
    have ha : a &&& 128 ≠ 0 := hpre a (List.mem_cons_self _ _)
    have ht := ih b (fun x hx => hpre x (List.mem_cons_of_mem _ hx)) hb
    cases t with
    | nil => simpa [isVarint, ha] using hb
    | cons c cs =>
      simp only [List.cons_append] at ht ⊢
      simp [isVarint, ha, ht]

/-- C13: for every stream `getLength` consumes at most 16 bytes, all of them
from the front of the stream; it stops right behind the first byte whose high
bit is clear when that byte is among the first 16; and when the first 16 bytes
all have the high bit set it consumes exactly those 16 and leaves the 17th
unread. -/
theorem getLength_consumes_at_most_16 (wide : Nat → Nat → Int) (p : Nat) :
    (∀ rest : List Nat, ∃ n, n ≤ 16 ∧ n ≤ rest.length ∧
        (getLength wide { rest := rest, pos := p }).2
          = { rest := rest.drop n, pos := p + n }) ∧
      (∀ (pre : List Nat) (b : Nat) (rest : List Nat),
        (∀ x ∈ pre, x &&& 128 ≠ 0) → b &&& 128 = 0 → pre.length < 16 →
        (getLength wide { rest := pre ++ b :: rest, pos := p }).2
          = { rest := rest, pos := p + (pre.length + 1) }) ∧
      (∀ (first rest : List Nat),
        (∀ x ∈ first, x &&& 128 ≠ 0) → first.length = 16 →
        (getLength wide { rest := first ++ rest, pos := p }).2
          = { rest := rest, pos := p + 16 }) := by
  refine ⟨fun rest => getLengthLoop_consumed wide 16 0 0 0 { rest := rest, pos := p }, ?_, ?_⟩
  · intro pre b rest hpre hb hlen
    have hv := isVarint_append_clear pre b hpre hb
    have h := getLength_varint wide (pre ++ [b]) rest p hv (by simp; omega)
    have happ : pre ++ b :: rest = pre ++ [b] ++ rest := by simp
    rw [happ, h]
    simp
  · intro first rest hfirst hlen
    obtain ⟨d1, l1, h1⟩ := getLengthLoop_all_continued wide first 16 0 0 0 rest p hfirst
      (by omega) (by omega)
    rw [getLength, h1, hlen]
    rfl

/-- Witness for C13: a three-byte varint followed by more bytes, and sixteen
continuation bytes followed by a seventeenth byte. -/
theorem getLength_consumes_at_most_16_witness :
    (getLength (fun _ _ => 0) { rest := [129, 130] ++ 3 :: [77, 78], pos := 0 }).2
        = { rest := [77, 78], pos := 0 + (2 + 1) } ∧
      (getLength (fun _ _ => 0)
          { rest := List.replicate 16 255 ++ [1, 2], pos := 0 }).2
        = { rest := [1, 2], pos := 0 + 16 } :=
  ⟨(getLength_consumes_at_most_16 (fun _ _ => 0) 0).2.1 [129, 130] 3 [77, 78]
      (by decide) (by decide) (by decide),
    (getLength_consumes_at_most_16 (fun _ _ => 0) 0).2.2 (List.replicate 16 255) [1, 2]
      (by decide) (by decide)⟩


theorem getPathOfMessage_even {F : Type} (D : DoubleOps F) (p k : Nat) (points : List Int)
    (hlen : points.length = 2 * k) :
    ∃ polyline : Polyline F,
      getPathOfMessage D { decimalprecision := p, points := points } = .ok polyline ∧
        polyline.points.length = k ∧
        polyline.fill = ⟨Color.ofDefaults .White⟩ ∧
        polyline.stroke = ⟨D.ofInt 1, Color.ofDefaults .Black⟩ := by
  by_cases hk : k = 0
  · subst hk
    have h0 : points.length = 0 := by omega
    refine ⟨Polyline.create ⟨Color.ofDefaults .White⟩ ⟨D.ofInt 1, Color.ofDefaults .Black⟩,
      ?_, rfl, rfl, rfl⟩
    simp only [getPathOfMessage, h0, gt_iff_lt, Nat.lt_irrefl, if_false]
  · obtain ⟨a, ha, hl, _⟩ := integerValues_ok points k (by omega) hlen
    have hpos : points.length > 0 := by omega
    have hrun := pointLoop_ok D p points.length a hl k points.length 0
      (Polyline.create ⟨Color.ofDefaults .White⟩ ⟨D.ofInt 1, Color.ofDefaults .Black⟩)
      (by omega) (by omega)
    have hget : getPathOfMessage D { decimalprecision := p, points := points }
        = pointLoop D p points.length a points.length 0
          (Polyline.create ⟨Color.ofDefaults .White⟩ ⟨D.ofInt 1, Color.ofDefaults .Black⟩) := by
      simp only [getPathOfMessage, hpos, if_true, ha, Outcome.bind]
    rw [hget, hrun]
    refine ⟨_, rfl, ?_, rfl, rfl⟩
    simp [Polyline.create]

/-- C14 fails as stated. `ParseFromArray` belongs to the protobuf library and
enters `getPath` as the parameter `parse`, the flag it returns together with the
message it leaves behind; the claim speaks of whatever field values a failed
decode left, so that outcome is part of the input. When the decode of a payload
fails and has left the two point values `10, 10`, `getPath` returns a Polyline
with the one point `(10, 10)`, not with zero points; hence "zero points after
every failed decode, whatever it left" is false. -/
theorem getPath_failed_parse_keeps_points :
    getPath exactOps (fun _ => (false, { decimalprecision := 0, points := [10, 10] })) [9] 1
        = .ok { points := [⟨exactOps.ofInt 10, exactOps.ofInt 10⟩],
                fill := ⟨Color.ofDefaults .White⟩,
                stroke := ⟨exactOps.ofInt 1, Color.ofDefaults .Black⟩ } ∧
      ¬ ∀ (parse : List Nat → Bool × Path) (data : List Nat) (len : Nat),
          (parse (data.take len)).1 = false →
          ∃ polyline : Polyline Q,
            getPath exactOps parse data len = .ok polyline ∧ polyline.points = [] := by
  refine ⟨by decide, fun h => ?_⟩
  obtain ⟨pl, h1, h2⟩ :=
    h (fun _ => (false, { decimalprecision := 0, points := [10, 10] })) [9] 1 rfl
  have hrun : getPath exactOps
      (fun _ => (false, { decimalprecision := 0, points := [10, 10] })) [9] 1
        = .ok { points := [⟨exactOps.ofInt 10, exactOps.ofInt 10⟩],
                fill := ⟨Color.ofDefaults .White⟩,
                stroke := ⟨exactOps.ofInt 1, Color.ofDefaults .Black⟩ } := by
    decide
  rw [hrun] at h1
  have hpl := Outcome.ok.inj h1
  rw [← hpl] at h2
  exact absurd h2 (by decide)

/-- C14 as amended: for every payload that `ParseFromArray` reports as invalid,
`getPath` does not abort on the report and returns the Polyline decoded from the
field values the failed decode left in the message: when it left the precision
`p` and `2k` point values, the Polyline has exactly `k` points, point `i` being
`(absolute[2i] / 10^p, absolute[2i+1] / 10^p)` for the sequence `absolute`
delta-reconstructed from the values left, so it has zero points exactly when no
point value was left. -/
theorem getPath_failed_parse {F : Type} (D : DoubleOps F) (parse : List Nat → Bool × Path)
    (data : List Nat) (len p k : Nat) (points : List Int)
    (hfail : parse (data.take len) = (false, { decimalprecision := p, points := points }))
    (hlen : points.length = 2 * k) :
    ∃ (polyline : Polyline F) (absolute : List Int),
      getPath D parse data len = .ok polyline ∧
      polyline.points.length = k ∧
      (polyline.points = [] ↔ points = []) ∧
      absolute.length = 2 * k ∧
      (∀ j, j < 2 → j < 2 * k → absolute.getD j 0 = points.getD j 0) ∧
      (∀ j, 2 ≤ j → j < 2 * k →
        absolute.getD j 0 = wrap32 (absolute.getD (j - 2) 0 + points.getD j 0)) ∧
      polyline.points = (List.range k).map fun i =>
        ⟨D.div (D.ofInt (absolute.getD (2 * i) 0)) (D.pow10 p),
         D.div (D.ofInt (absolute.getD (2 * i + 1) 0)) (D.pow10 p)⟩ := by
  have hmsg : (parse (data.take len)).2 = { decimalprecision := p, points := points } := by
    rw [hfail]
  obtain ⟨polyline, absolute, hget, hal, _, h01, hrec, hpts⟩ :=
    getPathOfMessage_points D p k points hlen
  have hk : polyline.points.length = k := by
    rw [hpts]
    simp
  refine ⟨polyline, absolute, by simp only [getPath, hmsg, hget], hk, ?_, hal, h01, hrec, hpts⟩
  constructor
  · intro h
    apply List.length_eq_zero.mp
    rw [h] at hk
    simp at hk
    omega
  · intro h
    apply List.length_eq_zero.mp
    rw [h] at hlen
    simp at hlen
    omega

/-- Witness for C14 as amended with exact arithmetic: a decode that fails after
leaving precision 0 and the point values `[10, 10, 5, -5]` makes `getPath` return
the two points `(10, 10)` and `(15, 5)`. -/
theorem getPath_failed_parse_witness :
    ∃ polyline : Polyline Q,
      getPath exactOps
          (fun _ => (false, { decimalprecision := 0, points := [10, 10, 5, -5] })) [9] 1
        = .ok polyline ∧
      polyline.points
        = [⟨exactOps.ofInt 10, exactOps.ofInt 10⟩, ⟨exactOps.ofInt 15, exactOps.ofInt 5⟩] ∧
      polyline.points ≠ [] := by
  obtain ⟨pl, a, h1, _, hnil, _, h01, hrec, hpts⟩ := getPath_failed_parse exactOps
    (fun _ => (false, { decimalprecision := 0, points := [10, 10, 5, -5] })) [9] 1 0 2
    [10, 10, 5, -5] rfl (by decide)
  have a0 : a.getD 0 0 = 10 := h01 0 (by decide) (by decide)
  have a1 : a.getD 1 0 = 10 := h01 1 (by decide) (by decide)
  have a2 : a.getD 2 0 = 15 := by
    rw [hrec 2 (by decide) (by decide), a0]
    decide
  have a3 : a.getD 3 0 = 5 := by
    rw [hrec 3 (by decide) (by decide), a1]
    decide
  refine ⟨pl, h1, ?_, fun h => absurd (hnil.mp h) (by decide)⟩
  rw [hpts]
  simp only [List.range, List.range.loop, List.map, Nat.mul_zero, Nat.mul_one, Nat.zero_add,
    a0, a1, a2, a3]
  decide

theorem Polyline.toString_eq {F : Type} (D : DoubleOps F) (p : Polyline F) (layout : Layout F) :
    Polyline.toString D p layout
      = "\t<polyline points=\""
        ++ concatAll (p.points.map (pointText D layout))
        ++ "\" " ++ p.fill.toString ++ Stroke.toString D p.stroke layout ++ "/>\n" := by
  have hloop := pointsLoop_eq D layout p.points p.points.length 0
    (elemStart "polyline" ++ "points=\"") (by omega)
  simp only [Polyline.toString, hloop, List.drop_zero]
  apply String.ext
  simp only [elemStart, emptyElemEnd, String.data_append, List.append_assoc]
  rfl

/-- C17: for every record with non-zero announced length whose decoded point list
is empty, `getPath` returns (without a fault) the Polyline with zero points and
the default style, `read_file` contributes that Polyline, and under every layout
it serializes to a `polyline` element whose points attribute is `points=""`. -/
theorem empty_record_polyline {F : Type} (D : DoubleOps F) (wide : Nat → Nat → Int)
    (parse : List Nat → Bool × Path) (r : WireRecord) (term tail : List Nat) (pos : Nat)
    (layout : Layout F)
    (hr : r.announced wide)
    (hterm : isVarint term = true ∧ term.length ≤ 16 ∧
      (getLength wide { rest := term, pos := 0 }).1 = 0)
    (hempty : (parse (r.payload.take r.payload.length)).2.points = []) :
    getPath D parse r.payload r.payload.length
        = .ok (Polyline.create ⟨Color.ofDefaults .White⟩ ⟨D.ofInt 1, Color.ofDefaults .Black⟩) ∧
      read_file D wide parse { rest := wireBytes [r] ++ (term ++ tail), pos := pos }
        = .ok ([Polyline.create ⟨Color.ofDefaults .White⟩ ⟨D.ofInt 1, Color.ofDefaults .Black⟩],
            { rest := tail, pos := pos + wireSize [r] + term.length }) ∧
      Polyline.toString D
          (Polyline.create ⟨Color.ofDefaults .White⟩ ⟨D.ofInt 1, Color.ofDefaults .Black⟩) layout
        = "\t<polyline points=\"\" fill=\"rgb(255,255,255)\" "
          ++ Stroke.toString D ⟨D.ofInt 1, Color.ofDefaults .Black⟩ layout ++ "/>\n" := by
  have hget : getPath D parse r.payload r.payload.length
      = .ok (Polyline.create ⟨Color.ofDefaults .White⟩ ⟨D.ofInt 1, Color.ofDefaults .Black⟩) := by
    simp only [getPath, getPathOfMessage, hempty, List.length_nil, gt_iff_lt, Nat.lt_irrefl,
      if_false]
  refine ⟨hget, ?_, ?_⟩
  · have hrecs : ∀ x ∈ [r], x.announced wide := by
      intro x hx
      rw [List.mem_singleton] at hx
      rw [hx]
      exact hr
    have hge := wireBytes_length_ge wide [r] hrecs
    have := readFileLoop_records D wide parse term tail hterm [r] _ []
      ((wireBytes [r] ++ (term ++ tail)).length + 1) pos hrecs
      (List.Forall₂.cons hget List.Forall₂.nil)
      (by simp only [List.length_append, List.length_singleton] at hge ⊢; omega)
    simpa [read_file] using this
  · rw [Polyline.toString_eq]
    apply String.ext
    simp only [Polyline.create, List.map_nil, concatAll, Fill.toString, attributeStr,
      String.data_append, List.append_assoc]
    rfl


/-- Witness for C17: the stream `[3, b1 b2 b3][0]` whose payload decodes to a
message without points. -/
theorem empty_record_polyline_witness :
    (({ header := [3], payload := [1, 2, 3] } : WireRecord).announced (fun _ _ => 0)) ∧
      read_file exactOps (fun _ _ => 0)
          (fun _ => (true, { decimalprecision := 2, points := [] }))
          { rest := [3, 1, 2, 3, 0], pos := 0 }
        = .ok ([Polyline.create ⟨Color.ofDefaults .White⟩
                  ⟨exactOps.ofInt 1, Color.ofDefaults .Black⟩],
            { rest := [], pos := 5 }) ∧
      Polyline.toString exactOps
          (Polyline.create ⟨Color.ofDefaults .White⟩ ⟨exactOps.ofInt 1, Color.ofDefaults .Black⟩)
          (Layout.ofDimensions exactOps ⟨exactOps.ofInt 592, exactOps.ofInt 864⟩ .TopLeft)
        = "\t<polyline points=\"\" fill=\"rgb(255,255,255)\" stroke-width=\"1\" stroke=\"rgb(0,0,0)\" />\n" := by
  have h := empty_record_polyline exactOps (fun _ _ => 0)
    (fun _ => (true, { decimalprecision := 2, points := [] }))
    { header := [3], payload := [1, 2, 3] } [0] [] 0
    (Layout.ofDimensions exactOps ⟨exactOps.ofInt 592, exactOps.ofInt 864⟩ .TopLeft)
    (by decide) (by decide) rfl
  exact ⟨by decide, h.2.1, by decide⟩


/-- C18: for every layout, `Stroke::toString` is the empty string exactly when
the stroke width is negative, which includes the default-constructed Stroke of
width `-1`, and otherwise it is `stroke-width="<width*scale>" stroke="<color>" `;
`Fill(Color::Transparent).toString` is `fill="transparent" `; hence a Polyline
with a transparent Fill and a negative-width Stroke serializes with the
attribute `fill="transparent"` and no stroke attribute. -/
theorem stroke_fill_toString {F : Type} (D : DoubleOps F) (layout : Layout F) (s : Stroke F) :
    (Stroke.toString D s layout = "" ↔ D.lt s.width (D.ofInt 0) = true) ∧
      (D.lt s.width (D.ofInt 0) = false →
        Stroke.toString D s layout
          = "stroke-width=\"" ++ D.fmt (D.mul s.width layout.scale) ++ "\" stroke=\""
            ++ s.color.toString ++ "\" ") ∧
      (D.lt (D.ofInt (-1)) (D.ofInt 0) = true →
        Stroke.toString D (Stroke.default D) layout = "") ∧
      Fill.toString (Fill.ofDefaults .Transparent) = "fill=\"transparent\" " ∧
      (∀ p : Polyline F, p.fill = Fill.ofDefaults .Transparent →
        D.lt p.stroke.width (D.ofInt 0) = true →
        Polyline.toString D p layout
          = "\t<polyline points=\""
            ++ concatAll (p.points.map fun pt =>
                D.fmt (translateX D pt.x layout) ++ "," ++ D.fmt (translateY D pt.y layout) ++ " ")
            ++ "\" fill=\"transparent\" />\n") := by
  have hpos : D.lt s.width (D.ofInt 0) = false →
      Stroke.toString D s layout
        = "stroke-width=\"" ++ D.fmt (D.mul s.width layout.scale) ++ "\" stroke=\""
          ++ s.color.toString ++ "\" " := by
    intro h
    simp only [Stroke.toString, h, Bool.false_eq_true, if_false, translateScale]
    apply String.ext
    simp only [attributeStr, String.data_append, List.append_assoc]
    rfl
  refine ⟨?_, hpos, ?_, by decide, ?_⟩
  · constructor
    · intro hempty
      cases hlt : D.lt s.width (D.ofInt 0) with
      | true => rfl
      | false =>
        rw [hpos hlt] at hempty
        have hdata := congrArg String.data hempty
        simp only [String.data_append, List.append_assoc] at hdata
        exact absurd hdata (by simp [String.data])
    · intro hlt
      simp only [Stroke.toString, hlt, if_true]
  · intro hlt
    simp only [Stroke.toString, Stroke.default, hlt, if_true]
  · intro p hfill hlt
    rw [Polyline.toString_eq, hfill]
    simp only [Stroke.toString, hlt, if_true]
    apply String.ext
    simp only [pointText, String.data_append, List.append_assoc]
    rfl

/-- Witness for C18 with exact arithmetic: the default Stroke and a Polyline
with transparent fill and stroke width `-1`. -/
theorem stroke_fill_toString_witness :
    exactOps.lt (exactOps.ofInt (-1)) (exactOps.ofInt 0) = true ∧
      Stroke.toString exactOps (Stroke.default exactOps)
          (Layout.ofDimensions exactOps ⟨exactOps.ofInt 592, exactOps.ofInt 864⟩ .TopLeft) = "" ∧
      Polyline.toString exactOps
          { points := [], fill := Fill.ofDefaults .Transparent, stroke := Stroke.default exactOps }
          (Layout.ofDimensions exactOps ⟨exactOps.ofInt 592, exactOps.ofInt 864⟩ .TopLeft)
        = "\t<polyline points=\"\" fill=\"transparent\" />\n" := by
  have h := stroke_fill_toString exactOps
    (Layout.ofDimensions exactOps ⟨exactOps.ofInt 592, exactOps.ofInt 864⟩ .TopLeft)
    (Stroke.default exactOps)
  refine ⟨by decide, h.2.2.1 (by decide), ?_⟩
  rw [h.2.2.2.2 (⟨[], Fill.ofDefaults .Transparent, Stroke.default exactOps⟩ : Polyline Q)
    rfl (by decide)]
  decide

/-- C19: `Document::toString` is deterministic and leaves the Document as it is:
two consecutive calls return the same string, and body, layout and file name
after each call are those before it. -/
theorem document_toString_idempotent {F : Type} (D : DoubleOps F) (doc : Document F) :
    (Document.toStringCall D (Document.toStringCall D doc).2).1
        = (Document.toStringCall D doc).1 ∧
      (Document.toStringCall D doc).2.body_nodes_str = doc.body_nodes_str ∧
      (Document.toStringCall D doc).2.layout = doc.layout ∧
      (Document.toStringCall D doc).2.file_name = doc.file_name ∧
      (Document.toStringCall D (Document.toStringCall D doc).2).2 = doc :=
  ⟨rfl, rfl, rfl, rfl, rfl⟩


theorem foldl_lines_shl {F : Type} (D : DoubleOps F) (lines : List (Polyline F))
    (doc : Document F) :
    (lines.foldl (fun d line => d.shl (Polyline.toString D line)) doc).body_nodes_str
        = doc.body_nodes_str
          ++ concatAll (lines.map fun line => Polyline.toString D line doc.layout) ∧
      (lines.foldl (fun d line => d.shl (Polyline.toString D line)) doc).layout = doc.layout ∧
      (lines.foldl (fun d line => d.shl (Polyline.toString D line)) doc).file_name
        = doc.file_name := by
  have h := foldl_shl (lines.map fun line => Polyline.toString D line) doc
  rw [List.foldl_map, List.map_map] at h
  exact h

theorem concatAll_nil_append (s : String) : s ++ concatAll [] = s := by
  apply String.ext
  simp [concatAll]

/-- C15: for every container listing, whenever each matching entry that opens
is read by `read_file` without a fault, the Document body after the scan is the
body before it followed by the serialized Polylines of the entries in
enumeration order, within an entry in record order; an entry that does not match
or fails to open contributes nothing and the entries behind it are processed
all the same. Layout and file name are unchanged. -/
theorem scan_body_in_enumeration_order {F : Type} (D : DoubleOps F) (wide : Nat → Nat → Int)
    (parse : List Nat → Bool × Path) (entries : List Entry)
    (liness : List (List (Polyline F))) (doc : Document F) (cerr : List String)
    (hread : List.Forall₂ (fun e lines => e.contributes D wide parse lines) entries liness) :
    ∃ doc1 cerr1, scanLoop D wide parse entries doc cerr = .ok (doc1, cerr1) ∧
      doc1.body_nodes_str = doc.body_nodes_str
        ++ concatAll (liness.map fun lines =>
            concatAll (lines.map fun line => Polyline.toString D line doc.layout)) ∧
      doc1.layout = doc.layout ∧ doc1.file_name = doc.file_name := by
  induction hread generalizing doc cerr with
  | nil =>
    exact ⟨doc, cerr, rfl, (concatAll_nil_append _).symm, rfl, rfl⟩
  | @cons e lines es ls he _ ih =>
    unfold Entry.contributes at he
    rw [scanLoop]
    cases hm : isMediaEntry e.name with
    | false =>
      rw [hm] at he
      simp only at he
      subst he
      obtain ⟨d1, c1, h1, h2, h3, h4⟩ := ih doc cerr
      refine ⟨d1, c1, by simpa using h1, ?_, h3, h4⟩
      rw [h2]
      simp only [List.map_cons, List.map_nil, concatAll]
      apply String.ext
      simp
    | true =>
      rw [hm] at he
      cases hf : e.file with
      | none =>
        rw [hf] at he
        simp only at he
        subst he
        obtain ⟨d1, c1, h1, h2, h3, h4⟩ := ih doc (cerr ++ ["error opening " ++ e.name ++ "\n"])
        refine ⟨d1, c1, by simpa using h1, ?_, h3, h4⟩
        rw [h2]
        simp only [List.map_cons, List.map_nil, concatAll]
        apply String.ext
        simp
      | some bytes =>
        rw [hf] at he
        simp only at he
        obtain ⟨f, hrf⟩ := he
        obtain ⟨b1, b2, b3⟩ := foldl_lines_shl D lines doc
        obtain ⟨d1, c1, h1, h2, h3, h4⟩ :=
          ih (lines.foldl (fun d line => d.shl (Polyline.toString D line)) doc) cerr
        refine ⟨d1, c1, ?_, ?_, h3.trans b2, h4.trans b3⟩
        · simp only [if_true, hrf, Outcome.bind]
          exact h1
        · rw [h2, b1, b2]
          simp only [List.map_cons, concatAll, String.append_assoc]


/-- Witness for C15: a listing with a matching entry holding one record, a
matching entry that fails to open, an entry that does not match, and another
matching entry holding one record. -/
theorem scan_body_in_enumeration_order_witness :
    ∃ doc1 cerr1,
      scanLoop exactOps (fun _ _ => 0)
          (fun _ => (true, { decimalprecision := 0, points := [10, 10, 5, -5] }))
          [{ name := "sections/media/a.protobuf", file := some [3, 1, 2, 3, 0] },
           { name := "sections/media/b.protobuf", file := none },
           { name := "readme.txt", file := some [1] },
           { name := "sections/media/c.protobuf", file := some [1, 9, 0] }]
          (Document.create "out.svg" (Layout.ofDimensions exactOps
            ⟨exactOps.ofInt 592, exactOps.ofInt 864⟩ .TopLeft)) []
        = .ok (doc1, cerr1) ∧
      doc1.body_nodes_str
        = "\t<polyline points=\"10,10 15,5 \" fill=\"rgb(255,255,255)\" stroke-width=\"1\" stroke=\"rgb(0,0,0)\" />\n\t<polyline points=\"10,10 15,5 \" fill=\"rgb(255,255,255)\" stroke-width=\"1\" stroke=\"rgb(0,0,0)\" />\n" := by
  have hline : ∀ bytes n, read_file exactOps (fun _ _ => 0)
      (fun _ => (true, { decimalprecision := 0, points := [10, 10, 5, -5] }))
      { rest := bytes, pos := 0 }
      = .ok ([{ points := [⟨exactOps.ofInt 10, exactOps.ofInt 10⟩,
                  ⟨exactOps.ofInt 15, exactOps.ofInt 5⟩],
                fill := ⟨Color.ofDefaults .White⟩,
                stroke := ⟨exactOps.ofInt 1, Color.ofDefaults .Black⟩ }],
             { rest := [], pos := n }) →
      Entry.contributes exactOps (fun _ _ => 0)
        (fun _ => (true, { decimalprecision := 0, points := [10, 10, 5, -5] }))
        { name := "sections/media/a.protobuf", file := some bytes }
        [{ points := [⟨exactOps.ofInt 10, exactOps.ofInt 10⟩,
              ⟨exactOps.ofInt 15, exactOps.ofInt 5⟩],
            fill := ⟨Color.ofDefaults .White⟩,
            stroke := ⟨exactOps.ofInt 1, Color.ofDefaults .Black⟩ }] :=
    fun _ n h => ⟨{ rest := [], pos := n }, h⟩
  obtain ⟨d1, c1, h1, h2, _, _⟩ := scan_body_in_enumeration_order exactOps (fun _ _ => 0)
    (fun _ => (true, { decimalprecision := 0, points := [10, 10, 5, -5] }))
    [{ name := "sections/media/a.protobuf", file := some [3, 1, 2, 3, 0] },
     { name := "sections/media/b.protobuf", file := none },
     { name := "readme.txt", file := some [1] },
     { name := "sections/media/c.protobuf", file := some [1, 9, 0] }]
    [[{ points := [⟨exactOps.ofInt 10, exactOps.ofInt 10⟩, ⟨exactOps.ofInt 15, exactOps.ofInt 5⟩],
        fill := ⟨Color.ofDefaults .White⟩,
        stroke := ⟨exactOps.ofInt 1, Color.ofDefaults .Black⟩ }], [], [],
     [{ points := [⟨exactOps.ofInt 10, exactOps.ofInt 10⟩, ⟨exactOps.ofInt 15, exactOps.ofInt 5⟩],
        fill := ⟨Color.ofDefaults .White⟩,
        stroke := ⟨exactOps.ofInt 1, Color.ofDefaults .Black⟩ }]]
    (Document.create "out.svg" (Layout.ofDimensions exactOps
      ⟨exactOps.ofInt 592, exactOps.ofInt 864⟩ .TopLeft)) []
    (List.Forall₂.cons (hline [3, 1, 2, 3, 0] 5 (by decide))
      (List.Forall₂.cons rfl
        (List.Forall₂.cons rfl
          (List.Forall₂.cons ⟨{ rest := [], pos := 3 }, by decide⟩ List.Forall₂.nil))))
  exact ⟨d1, c1, h1, h2.trans (by decide)⟩

/-- C16 (what the code does): when the output target cannot be opened for
writing, `Document::save` returns false and the storage is unchanged, but `main`
discards that value: it writes no line about it to `std::cerr` and ends with
exit status 0, as after a successful save. When the target opens, `save` writes
exactly `Document::toString()` to it and returns true. -/
theorem main_discards_save_failure {F : Type} (D : DoubleOps F) (wide : Nat → Nat → Int)
    (parse : List Nat → Bool × Path) (will_file_name svg_file_name : String)
    (entries : List Entry) (fs : FileSystem) (doc : Document F) (cerr : List String)
    (hscan : scanLoop D wide parse entries
        (Document.create
          (if svg_file_name = "" then defaultSvgName will_file_name else (svg_file_name, [])).1
          (Layout.ofDimensions D { width := D.ofInt 592, height := D.ofInt 864 } .TopLeft))
        (if svg_file_name = "" then defaultSvgName will_file_name else (svg_file_name, [])).2
      = .ok (doc, cerr))
    (hclosed : fs.writable doc.file_name = false) :
    Document.save D doc fs = (false, fs) ∧
      mainAfterOpen D wide parse will_file_name svg_file_name entries fs
        = .ok { status := 0, cerr := cerr, doc := doc, fs := fs } ∧
      (∀ fs1 : FileSystem, fs1.writable doc.file_name = true →
        Document.save D doc fs1 = (true, fs1.write doc.file_name (Document.toString D doc)) ∧
          (Document.save D doc fs1).2.content doc.file_name = some (Document.toString D doc)) := by
  have hsave : Document.save D doc fs = (false, fs) := by
    simp [Document.save, hclosed]
  refine ⟨hsave, ?_, ?_⟩
  · simp only [mainAfterOpen, hscan, Outcome.bind, hsave]
  · intro fs1 hopen
    simp [Document.save, hopen, FileSystem.write]

/-- Witness for C16: an empty container and an output name in a directory that
does not exist. -/
theorem main_discards_save_failure_witness :
    mainAfterOpen exactOps (fun _ _ => 0) (fun _ => (true, { decimalprecision := 0, points := [] }))
        "notes.will" "/missing/out.svg" []
        { writable := fun _ => false, content := fun _ => none }
      = .ok { status := 0, cerr := [],
              doc := Document.create "/missing/out.svg" (Layout.ofDimensions exactOps
                { width := exactOps.ofInt 592, height := exactOps.ofInt 864 } .TopLeft),
              fs := { writable := fun _ => false, content := fun _ => none } } :=
  (main_discards_save_failure exactOps (fun _ _ => 0)
    (fun _ => (true, { decimalprecision := 0, points := [] }))
    "notes.will" "/missing/out.svg" [] { writable := fun _ => false, content := fun _ => none }
    _ _ rfl rfl).2.1

/-- C20 (what the code does): `main` cuts the input path at the first occurrence
of `.will`, wherever it is, and appends `.svg`; so `a.will.d/b.will` gives
`a.svg` and `my.willow` gives `my.svg`, while `notes.will` gives `notes.svg` and a
path without `.will` gets `.svg` appended. -/
theorem defaultSvgName_cuts_at_first_occurrence :
    defaultSvgName "a.will.d/b.will" = ("a.svg", []) ∧
      defaultSvgName "my.willow" = ("my.svg", []) ∧
      defaultSvgName "notes.will" = ("notes.svg", []) ∧
      defaultSvgName "notes" = ("notes.svg", ["not a .will file! Will append .svg\n"]) ∧
      (∃ r : MainResult Q,
        mainAfterOpen exactOps (fun _ _ => 0)
            (fun _ => (true, { decimalprecision := 0, points := [] }))
            "a.will.d/b.will" "" [] { writable := fun _ => true, content := fun _ => none }
          = .ok r ∧ r.doc.file_name = "a.svg" ∧ (r.fs.content "a.svg").isSome = true ∧
          r.fs.content "a.will.d/b.svg" = none) := by
  refine ⟨by decide, by decide, by decide, by decide, ?_⟩
  refine ⟨_, rfl, ?_, ?_, ?_⟩
  · decide
  · decide
  · decide


theorem toUInt64_wrap32_ofNat (n : Nat) (h : n < 2147483648) :
    toUInt64 (wrap32 (n : Int)) = n := by
  unfold toUInt64 wrap32
  omega

theorem shiftInt_small (wide : Nat → Nat → Int) (v i : Nat) (hi : i ≤ 3) (hv : v < 128) :
    toUInt64 (shiftInt wide v (7 * i)) = 2 ^ (7 * i) * v := by
  have h32 : 7 * i < 32 := by omega
  have hpow : 2 ^ (7 * i) ≤ 2 ^ 21 := Nat.pow_le_pow_right (by omega) (by omega)
  have hprod : v * 2 ^ (7 * i) < 2147483648 := by
    have h1 : v * 2 ^ (7 * i) ≤ 127 * 2 ^ 21 := Nat.mul_le_mul (by omega) hpow
    have h2 : 127 * 2 ^ 21 < 2147483648 := by norm_num
    omega
  have hcast : ((v : Int) * 2 ^ (7 * i)) = ((v * 2 ^ (7 * i) : Nat) : Int) := by
    push_cast
    rfl
  simp only [shiftInt, h32, if_true]
  rw [hcast, toUInt64_wrap32_ofNat _ hprod, Nat.mul_comm]

theorem getLengthLoop_small (wide : Nat → Nat → Int) :
    ∀ (hdr : List Nat) (fuel i data len q : Nat),
      isVarint hdr = true → hdr.length ≤ fuel → i + hdr.length ≤ 4 → len < 2 ^ (7 * i) →
      (getLengthLoop wide fuel i data len { rest := hdr, pos := q }).1
          = len + 2 ^ (7 * i) * varintValue hdr ∧
        len + 2 ^ (7 * i) * varintValue hdr < 2 ^ (7 * (i + hdr.length)) := by
  intro hdr
  induction hdr with
  | nil => intro fuel i data len q h; simp [isVarint] at h
  | cons b bs ih =>
    intro fuel i data len q hv hfuel hi hlen
    obtain ⟨f, rfl⟩ : ∃ f, fuel = f + 1 := ⟨fuel - 1, by simp at hfuel; omega⟩
    have hi3 : i ≤ 3 := by simp at hi; omega
    have hi16 : i < 16 := by omega
    have hb7 : b &&& 127 < 128 := Nat.lt_succ_of_le Nat.and_le_right
    have hterm := shiftInt_small wide (b &&& 127) i hi3 hb7
    have hor : len ||| 2 ^ (7 * i) * (b &&& 127) = len + 2 ^ (7 * i) * (b &&& 127) := by
      rw [Nat.lor_comm, ← Nat.mul_add_lt_is_or hlen, Nat.add_comm]
    have hnext : len + 2 ^ (7 * i) * (b &&& 127) < 2 ^ (7 * (i + 1)) := by
      have hp : 2 ^ (7 * (i + 1)) = 2 ^ (7 * i) * 128 := by
        rw [Nat.mul_add, Nat.pow_add]
      rw [hp]
      have hle : 2 ^ (7 * i) * (b &&& 127) ≤ 2 ^ (7 * i) * 127 :=
        Nat.mul_le_mul_left _ (by omega)
      omega
    cases bs with
    | nil =>
      have hb : b &&& 128 = 0 := by simpa [isVarint] using hv
      constructor
      · rw [getLengthLoop]
        simp only [hi16, if_true, zip_fread, List.take, hb, hterm, hor, varintValue,
          Nat.mul_zero, Nat.add_zero]
      · simpa [varintValue] using hnext
    | cons c cs =>
      have hb : ¬ (b &&& 128 = 0) := by
        have := hv
        simp [isVarint] at this
        exact this.1
      have hv2 : isVarint (c :: cs) = true := by
        have := hv
        simp [isVarint] at this
        exact this.2
      obtain ⟨h1, h2⟩ := ih f (i + 1) b (len + 2 ^ (7 * i) * (b &&& 127)) (q + 1) hv2
        (by simp at hfuel ⊢; omega) (by simp at hi ⊢; omega) hnext
      have hp : 2 ^ (7 * (i + 1)) = 2 ^ (7 * i) * 128 := by
        rw [Nat.mul_add, Nat.pow_add]
      have hval : len + 2 ^ (7 * i) * (b &&& 127) + 2 ^ (7 * (i + 1)) * varintValue (c :: cs)
          = len + 2 ^ (7 * i) * varintValue (b :: c :: cs) := by
        rw [hp]
        simp only [varintValue]
        ring
      constructor
      · rw [getLengthLoop]
        simp only [hi16, if_true, zip_fread, List.take, List.drop, hb, if_false, hterm, hor,
          List.length_cons, List.length_nil]
        have hq : q + (0 + 1) = q + 1 := by omega
        rw [hq, h1, hval]
      · rw [← hval]
        have hl : i + 1 + (c :: cs).length = i + (b :: c :: cs).length := by
          simp only [List.length_cons]
          omega
        rw [← hl]
        exact h2

/-- C26: for every correctly terminated varint of 1 to 4 bytes, `getLength`
returns exactly the integer the bytes encode, the sum over `i` of
`(b_i & 127) * 2^(7*i)`, which is below `2^28`, and leaves the cursor behind the
varint; no shift count reaches 32 and no shifted value leaves the range of the
32-bit `int`, whatever the implementation does with wider shifts. -/
theorem getLength_short_varint_exact (wide : Nat → Nat → Int) (hdr rest : List Nat) (p : Nat)
    (hv : isVarint hdr = true) (h4 : hdr.length ≤ 4) :
    getLength wide { rest := hdr ++ rest, pos := p }
        = (varintValue hdr, { rest := rest, pos := p + hdr.length }) ∧
      varintValue hdr < 2 ^ 28 := by
  obtain ⟨h1, h2⟩ := getLengthLoop_small wide hdr 16 0 0 0 0 hv (by omega) (by omega)
    (by norm_num)
  simp only [Nat.mul_zero, Nat.pow_zero, Nat.one_mul, Nat.zero_add] at h1 h2
  have hlt : varintValue hdr < 2 ^ 28 :=
    Nat.lt_of_lt_of_le h2 (Nat.pow_le_pow_right (by omega) (by omega))
  refine ⟨?_, hlt⟩
  rw [getLength_varint wide hdr rest p hv (by omega)]
  show ((getLengthLoop wide 16 0 0 0 { rest := hdr, pos := 0 }).1, _) = _
  rw [h1]

/-- Witness for C26: the two-byte varint `96 01` encodes 150. -/
theorem getLength_short_varint_exact_witness :
    (isVarint [150, 1] = true ∧ [150, 1].length ≤ 4) ∧
      getLength (fun _ _ => 0) { rest := [150, 1] ++ [9, 9], pos := 0 }
        = (150, { rest := [9, 9], pos := 0 + 2 }) :=
  ⟨⟨by decide, by decide⟩,
    (getLength_short_varint_exact (fun _ _ => 0) [150, 1] [9, 9] 0 (by decide) (by decide)).1⟩


theorem getPath_ok_or_outOfBounds {F : Type} (D : DoubleOps F) (parse : List Nat → Bool × Path)
    (data : List Nat) (len : Nat) :
    (∃ polyline, getPath D parse data len = .ok polyline) ∨
      (getPath D parse data len : Outcome (Polyline F)) = .fault .outOfBounds := by
  rcases Nat.mod_two_eq_zero_or_one (parse (data.take len)).2.points.length with h | h
  · left
    obtain ⟨pl, h1, _⟩ := getPathOfMessage_even D (parse (data.take len)).2.decimalprecision
      ((parse (data.take len)).2.points.length / 2) (parse (data.take len)).2.points (by omega)
    exact ⟨pl, h1⟩
  · right
    have hpos : (parse (data.take len)).2.points.length > 0 := by omega
    simp only [getPath, getPathOfMessage, hpos, if_true, integerValues_odd _ h, Outcome.bind]

theorem getLength_at_end (wide : Nat → Nat → Int) (p : Nat) :
    getLength wide { rest := [], pos := p } = (0, { rest := [], pos := p }) := by
  simp +decide [getLength, getLengthLoop, zip_fread, shiftInt, wrap32, toUInt64]

theorem getLength_nonzero_consumes (wide : Nat → Nat → Int) (file : ZipFile)
    (h : (getLength wide file).1 ≠ 0) :
    (getLength wide file).2.rest.length < file.rest.length := by
  obtain ⟨rest, p⟩ := file
  cases rest with
  | nil =>
    rw [getLength_at_end] at h
    exact absurd rfl h
  | cons b t =>
    rw [getLength, getLengthLoop]
    simp only [show (0 : Nat) < 16 from by omega, if_true, zip_fread, List.take, List.drop,
      List.length_cons, List.length_nil]
    split
    · simp
    · obtain ⟨n, _, _, h3⟩ := getLengthLoop_consumed wide 15 (0 + 1) b
        (0 ||| toUInt64 (shiftInt wide (b &&& 127) (7 * 0))) { rest := t, pos := p + (0 + 1) }
      rw [h3]
      simp only [List.length_drop]
      omega

theorem getData_rest_le (file : ZipFile) (len : Int) (buff : List Nat) (file1 : ZipFile)
    (h : getData file len = .ok (buff, file1)) : file1.rest.length ≤ file.rest.length := by
  unfold getData at h
  split at h
  · exact absurd h (by simp)
  · have h2 := congrArg (fun o => match o with
      | Outcome.ok d => d.2.rest.length
      | Outcome.fault _ => 0) h
    simp only [zip_fread, List.length_drop] at h2
    omega

theorem getData_ok_or_badAlloc (file : ZipFile) (len : Int) :
    (∃ d, getData file len = .ok d) ∨ getData file len = .fault .badAlloc := by
  unfold getData
  split
  · exact Or.inr rfl
  · exact Or.inl ⟨_, rfl⟩

theorem readFileLoop_enough_fuel {F : Type} (D : DoubleOps F) (wide : Nat → Nat → Int)
    (parse : List Nat → Bool × Path) :
    ∀ (fuel : Nat) (file : ZipFile) (lines : List (Polyline F)), file.rest.length < fuel →
      (∃ r, readFileLoop D wide parse fuel file lines = .ok r) ∨
        readFileLoop D wide parse fuel file lines = .fault .outOfBounds ∨
        readFileLoop D wide parse fuel file lines = .fault .badAlloc := by
  intro fuel
  induction fuel with
  | zero => intro file lines h; omega
  | succ f ih =>
    intro file lines hlen
    have hcons := getLength_nonzero_consumes wide file
    rw [readFileLoop]
    generalize getLength wide file = r at hcons ⊢
    by_cases h0 : r.1 = 0
    · rw [if_pos h0]
      exact Or.inl ⟨_, rfl⟩
    · rw [if_neg h0]
      have hlt := hcons h0
      rcases getData_ok_or_badAlloc r.2 (toInt32 r.1) with ⟨d, hd⟩ | hd
      · have hrest := getData_rest_le _ _ d.1 d.2 hd
        rw [hd]
        rcases getPath_ok_or_outOfBounds D parse d.1 (toUInt32 r.1) with ⟨pl, hp⟩ | hp
        · simp only [Outcome.bind, hp]
          exact ih d.2 (lines ++ [pl]) (by omega)
        · simp [Outcome.bind, hp]
      · rw [hd]
        exact Or.inr (Or.inr rfl)

/-- C24: `read_file` terminates on every finite entry stream, with or without a
zero-length terminator record: its loop ends after at most one turn per
remaining byte plus one, either with the vector of Polylines or by leaving the
defined behaviour of the program (an out-of-bounds access in `getPath`, a
negative size given to `calloc`). At the end of the stream `getLength` returns 0
and leaves the cursor where it is, and whenever `getLength` returns a non-zero
length it has consumed at least one byte, while `getData` never gives bytes back. -/
theorem read_file_terminates {F : Type} (D : DoubleOps F) (wide : Nat → Nat → Int)
    (parse : List Nat → Bool × Path) (file : ZipFile) :
    ((∃ r, read_file D wide parse file = .ok r) ∨
        (read_file D wide parse file : Outcome (List (Polyline F) × ZipFile))
          = .fault .outOfBounds ∨
        (read_file D wide parse file : Outcome (List (Polyline F) × ZipFile))
          = .fault .badAlloc) ∧
      getLength wide { rest := [], pos := file.pos } = (0, { rest := [], pos := file.pos }) ∧
      ((getLength wide file).1 ≠ 0 →
        (getLength wide file).2.rest.length < file.rest.length) ∧
      (∀ (len : Int) (buff : List Nat) (file1 : ZipFile),
        getData file len = .ok (buff, file1) → file1.rest.length ≤ file.rest.length) :=
  ⟨readFileLoop_enough_fuel D wide parse (file.rest.length + 1) file [] (by omega),
    getLength_at_end wide file.pos,
    getLength_nonzero_consumes wide file,
    fun len buff file1 h => getData_rest_le file len buff file1 h⟩

/-- Witness for C24: a stream of one record without a terminator behind it; the
loop stops at the end of the stream with the one Polyline. -/
theorem read_file_terminates_witness :
    (getLength (fun _ _ => 0) { rest := [3, 1, 2, 3], pos := 0 }).1 ≠ 0 ∧
      (getLength (fun _ _ => 0) { rest := [3, 1, 2, 3], pos := 0 }).2.rest.length
        < [3, 1, 2, 3].length ∧
      ∃ lines, read_file exactOps (fun _ _ => 0)
          (fun _ => (true, { decimalprecision := 0, points := [10, 10] }))
          { rest := [3, 1, 2, 3], pos := 0 }
        = .ok (lines, { rest := [], pos := 4 }) ∧ lines.length = 1 := by
  have h := read_file_terminates exactOps (fun _ _ => 0)
    (fun _ => (true, { decimalprecision := 0, points := [10, 10] }))
    { rest := [3, 1, 2, 3], pos := 0 }
  exact ⟨by decide, h.2.2.1 (by decide),
    [(⟨[⟨exactOps.ofInt 10, exactOps.ofInt 10⟩], ⟨Color.ofDefaults .White⟩,
      ⟨exactOps.ofInt 1, Color.ofDefaults .Black⟩⟩ : Polyline Q)], by decide, rfl⟩


/-- C21: every Polyline `getPath` returns, for every payload, has the white fill
and the black stroke of width 1 it was constructed with; hence, `1 < 0` being
false in `double`, under every layout its serialization carries
`fill="rgb(255,255,255)" stroke-width="<1*scale>" stroke="rgb(0,0,0)" ` behind
the points, whatever the record holds. -/
theorem getPath_default_style {F : Type} (D : DoubleOps F) (parse : List Nat → Bool × Path)
    (data : List Nat) (len : Nat) (polyline : Polyline F)
    (hret : getPath D parse data len = .ok polyline) :
    polyline.fill = ⟨Color.ofDefaults .White⟩ ∧
      polyline.stroke = ⟨D.ofInt 1, Color.ofDefaults .Black⟩ ∧
      (D.lt (D.ofInt 1) (D.ofInt 0) = false → ∀ layout : Layout F,
        Polyline.toString D polyline layout
          = "\t<polyline points=\""
            ++ concatAll (polyline.points.map fun pt =>
                D.fmt (translateX D pt.x layout) ++ "," ++ D.fmt (translateY D pt.y layout) ++ " ")
            ++ "\" fill=\"rgb(255,255,255)\" stroke-width=\""
            ++ D.fmt (D.mul (D.ofInt 1) layout.scale) ++ "\" stroke=\"rgb(0,0,0)\" />\n") := by
  have hstyle : polyline.fill = ⟨Color.ofDefaults .White⟩ ∧
      polyline.stroke = ⟨D.ofInt 1, Color.ofDefaults .Black⟩ := by
    rcases Nat.mod_two_eq_zero_or_one (parse (data.take len)).2.points.length with h | h
    · obtain ⟨pl, h1, _, h3, h4⟩ := getPathOfMessage_even D
        (parse (data.take len)).2.decimalprecision
        ((parse (data.take len)).2.points.length / 2) (parse (data.take len)).2.points (by omega)
      have heq : Outcome.ok pl = Outcome.ok polyline := by
        rw [← h1, ← hret]
        rfl
      rw [← Outcome.ok.inj heq]
      exact ⟨h3, h4⟩
    · have hpos : (parse (data.take len)).2.points.length > 0 := by omega
      have hf : (getPath D parse data len : Outcome (Polyline F)) = .fault .outOfBounds := by
        simp only [getPath, getPathOfMessage, hpos, if_true, integerValues_odd _ h, Outcome.bind]
      rw [hf] at hret
      exact absurd hret (by simp)
  refine ⟨hstyle.1, hstyle.2, fun hlt layout => ?_⟩
  rw [Polyline.toString_eq, hstyle.1, hstyle.2]
  simp only [Stroke.toString, hlt, Bool.false_eq_true, if_false, translateScale]
  apply String.ext
  simp only [pointText, Fill.toString, attributeStr, String.data_append, List.append_assoc]
  rfl

/-- Witness for C21 with exact arithmetic on the points `[10, 10, 5, -5]`. -/
theorem getPath_default_style_witness :
    getPath exactOps (fun _ => (true, { decimalprecision := 0, points := [10, 10, 5, -5] })) [] 0
        = .ok ⟨[⟨exactOps.ofInt 10, exactOps.ofInt 10⟩, ⟨exactOps.ofInt 15, exactOps.ofInt 5⟩],
            ⟨Color.ofDefaults .White⟩, ⟨exactOps.ofInt 1, Color.ofDefaults .Black⟩⟩ ∧
      Polyline.toString exactOps
          ⟨[⟨exactOps.ofInt 10, exactOps.ofInt 10⟩, ⟨exactOps.ofInt 15, exactOps.ofInt 5⟩],
            ⟨Color.ofDefaults .White⟩, ⟨exactOps.ofInt 1, Color.ofDefaults .Black⟩⟩
          (Layout.ofDimensions exactOps ⟨exactOps.ofInt 592, exactOps.ofInt 864⟩ .TopLeft)
        = "\t<polyline points=\"10,10 15,5 \" fill=\"rgb(255,255,255)\" stroke-width=\"1\" stroke=\"rgb(0,0,0)\" />\n" := by
  have hret : getPath exactOps
      (fun _ => (true, { decimalprecision := 0, points := [10, 10, 5, -5] })) [] 0
      = .ok ⟨[⟨exactOps.ofInt 10, exactOps.ofInt 10⟩, ⟨exactOps.ofInt 15, exactOps.ofInt 5⟩],
          ⟨Color.ofDefaults .White⟩, ⟨exactOps.ofInt 1, Color.ofDefaults .Black⟩⟩ := by
    decide
  refine ⟨hret, ?_⟩
  rw [(getPath_default_style exactOps _ [] 0 _ hret).2.2 (by decide)]
  decide


/-- C22 (what the code does): copy assignment of a Circle, Elipse, Rectangle,
Line, Polygon or Polyline copies geometry, fill and stroke, so the two shapes
serialize alike under every layout; `Text::operator=` assigns origin, content
and font only, the assigned Text keeps its own fill and stroke, and a red Text
assigned from a blue one still serializes with the red fill. -/
theorem text_assign_keeps_own_style {F : Type} (D : DoubleOps F) (L : Layout F) :
    (∀ a b : Circle F, Circle.toString D (a.assign b) L = Circle.toString D b L) ∧
      (∀ a b : Elipse F, Elipse.toString D (a.assign b) L = Elipse.toString D b L) ∧
      (∀ a b : Rectangle F, Rectangle.toString D (a.assign b) L = Rectangle.toString D b L) ∧
      (∀ a b : Line F, Line.toString D (a.assign b) L = Line.toString D b L) ∧
      (∀ a b : Polygon F, Polygon.toString D (a.assign b) L = Polygon.toString D b L) ∧
      (∀ a b : Polyline F, Polyline.toString D (a.assign b) L = Polyline.toString D b L) ∧
      (∀ a b : Text F, (a.assign b).fill = a.fill ∧ (a.assign b).stroke = a.stroke ∧
        (a.assign b).origin = b.origin ∧ (a.assign b).content = b.content ∧
        (a.assign b).font = b.font) ∧
      Text.toString exactOps
          (Text.assign
            ⟨⟨exactOps.ofInt 0, exactOps.ofInt 0⟩, "a", ⟨exactOps.ofInt 12, "Verdana"⟩,
              Fill.ofDefaults .Red, Stroke.default exactOps⟩
            ⟨⟨exactOps.ofInt 1, exactOps.ofInt 2⟩, "b", ⟨exactOps.ofInt 12, "Verdana"⟩,
              Fill.ofDefaults .Blue, Stroke.default exactOps⟩)
          (Layout.ofDimensions exactOps ⟨exactOps.ofInt 592, exactOps.ofInt 864⟩ .TopLeft)
        = "\t<text x=\"1\" y=\"2\" fill=\"rgb(255,0,0)\" font-size=\"12\" font-family=\"Verdana\" >b</text>\n" ∧
      Text.toString exactOps
          ⟨⟨exactOps.ofInt 1, exactOps.ofInt 2⟩, "b", ⟨exactOps.ofInt 12, "Verdana"⟩,
            Fill.ofDefaults .Blue, Stroke.default exactOps⟩
          (Layout.ofDimensions exactOps ⟨exactOps.ofInt 592, exactOps.ofInt 864⟩ .TopLeft)
        = "\t<text x=\"1\" y=\"2\" fill=\"rgb(0,0,255)\" font-size=\"12\" font-family=\"Verdana\" >b</text>\n" := by
  refine ⟨fun a b => rfl, fun a b => rfl, fun a b => rfl, fun a b => rfl, fun a b => rfl,
    fun a b => rfl, fun a b => ⟨rfl, rfl, rfl, rfl, rfl⟩, by decide, by decide⟩

theorem updateLoop_getElem? {α : Type} (f : α → α) :
    ∀ (fuel i : Nat) (v : List α), v.length ≤ i + fuel →
      (updateLoop f fuel i v).length = v.length ∧
        ∀ j, (updateLoop f fuel i v)[j]? = if i ≤ j then v[j]?.map f else v[j]? := by
  intro fuel
  induction fuel with
  | zero =>
    intro i v h
    refine ⟨rfl, fun j => ?_⟩
    by_cases hij : i ≤ j
    · have : v[j]? = none := List.getElem?_eq_none (by omega)
      simp [updateLoop, hij, this]
    · simp [updateLoop, hij]
  | succ n ih =>
    intro i v h
    by_cases hi : i < v.length
    · have hget : v.get? i = some v[i] := by
        simp [List.get?_eq_getElem?, List.getElem?_eq_getElem hi]
      rw [updateLoop]
      simp only [hget]
      obtain ⟨h1, h2⟩ := ih (i + 1) (v.set i (f v[i])) (by simp; omega)
      refine ⟨by rw [h1]; simp, fun j => ?_⟩
      rw [h2 j]
      by_cases hj : i + 1 ≤ j
      · have hne : i ≠ j := by omega
        have hle : i ≤ j := by omega
        simp [hj, hle, List.getElem?_set, hne]
      · by_cases hij : i = j
        · subst hij
          simp [List.getElem?_set, hi]
        · have hlt : ¬ i ≤ j := by omega
          simp [hj, hlt, List.getElem?_set, hij]
    · have hget : v.get? i = none := by
        simp [List.get?_eq_getElem?, List.getElem?_eq_none (Nat.le_of_not_lt hi)]
      rw [updateLoop]
      simp only [hget]
      refine ⟨trivial, fun j => ?_⟩
      by_cases hij : i ≤ j
      · have : v[j]? = none := List.getElem?_eq_none (by omega)
        simp [hij, this]
      · simp [hij]

theorem updateLoop_eq_map {α : Type} (f : α → α) (v : List α) :
    updateLoop f v.length 0 v = v.map f := by
  apply List.ext_getElem?
  intro j
  rw [(updateLoop_getElem? f v.length 0 v (by omega)).2 j]
  simp


theorem Point.shift_zero {F : Type} (D : DoubleOps F) (p : Point F) (h : p.fixedByZero D) :
    Point.shift D ⟨D.ofInt 0, D.ofInt 0⟩ p = p := by
  obtain ⟨x, y⟩ := p
  simp only [Point.fixedByZero] at h
  simp only [Point.shift, h.1, h.2]

theorem map_shift_zero {F : Type} (D : DoubleOps F) (points : List (Point F))
    (h : ∀ pt ∈ points, pt.fixedByZero D) :
    points.map (Point.shift D ⟨D.ofInt 0, D.ofInt 0⟩) = points := by
  induction points with
  | nil => rfl
  | cons p ps ih =>
    rw [List.map_cons, Point.shift_zero D p (h p (List.mem_cons_self _ _)),
      ih (fun pt hpt => h pt (List.mem_cons_of_mem _ hpt))]

theorem Polyline.offset_points_eq {F : Type} (D : DoubleOps F) (p : Polyline F) (o : Point F) :
    p.offset D o = ⟨p.points.map (Point.shift D o), p.fill, p.stroke⟩ := by
  simp only [Polyline.offset, updateLoop_eq_map]

theorem Polyline.offset_points_zero {F : Type} (D : DoubleOps F) (p : Polyline F)
    (h : ∀ pt ∈ p.points, pt.fixedByZero D) :
    p.offset D ⟨D.ofInt 0, D.ofInt 0⟩ = p := by
  rw [Polyline.offset_points_eq, map_shift_zero D p.points h]

theorem LineChart.offset_polylines_eq {F : Type} (D : DoubleOps F) (c : LineChart F) (o : Point F) :
    c.offset D o = { c with polylines := c.polylines.map fun p => p.offset D o } := by
  simp only [LineChart.offset, updateLoop_eq_map]

theorem LineChart.offset_polylines_zero {F : Type} (D : DoubleOps F) (c : LineChart F)
    (h : ∀ p ∈ c.polylines, ∀ pt ∈ p.points, pt.fixedByZero D) :
    c.offset D ⟨D.ofInt 0, D.ofInt 0⟩ = c := by
  rw [LineChart.offset_polylines_eq]
  have hmap : (c.polylines.map fun p => p.offset D ⟨D.ofInt 0, D.ofInt 0⟩) = c.polylines := by
    have hid : ∀ p ∈ c.polylines, p.offset D ⟨D.ofInt 0, D.ofInt 0⟩ = id p :=
      fun p hp => Polyline.offset_points_zero D p (h p hp)
    rw [List.map_congr_left hid, List.map_id]
  rw [hmap]

/-- C23: for every shape variant and every offset `o`, `offset(o)` adds `o.x` and
`o.y` to every coordinate the shape owns (the center of a Circle or Elipse, the
edge of a Rectangle, both end points of a Line, the origin of a Text, each point
of a Polygon or Polyline in place and in order, each point of each polyline of a
LineChart) and leaves every other member as it is; and a shape offset by `(0,0)`
serializes as the shape itself, for coordinates on which `c + 0 = c` holds in
`double`. -/
theorem offset_adds_to_coordinates {F : Type} (D : DoubleOps F) (o : Point F) (L : Layout F) :
    ((∀ c : Circle F, c.offset D o
          = ⟨⟨D.add c.center.x o.x, D.add c.center.y o.y⟩, c.radius, c.fill, c.stroke⟩) ∧
      (∀ e : Elipse F, e.offset D o
          = ⟨⟨D.add e.center.x o.x, D.add e.center.y o.y⟩, e.radius_width, e.radius_height,
              e.fill, e.stroke⟩) ∧
      (∀ r : Rectangle F, r.offset D o
          = ⟨⟨D.add r.edge.x o.x, D.add r.edge.y o.y⟩, r.width, r.height, r.fill, r.stroke⟩) ∧
      (∀ l : Line F, l.offset D o
          = ⟨⟨D.add l.start_point.x o.x, D.add l.start_point.y o.y⟩,
              ⟨D.add l.end_point.x o.x, D.add l.end_point.y o.y⟩, l.fill, l.stroke⟩) ∧
      (∀ t : Text F, t.offset D o
          = ⟨⟨D.add t.origin.x o.x, D.add t.origin.y o.y⟩, t.content, t.font, t.fill,
              t.stroke⟩) ∧
      (∀ p : Polygon F, p.offset D o
          = ⟨p.points.map fun pt => ⟨D.add pt.x o.x, D.add pt.y o.y⟩, p.fill, p.stroke⟩) ∧
      (∀ p : Polyline F, p.offset D o
          = ⟨p.points.map fun pt => ⟨D.add pt.x o.x, D.add pt.y o.y⟩, p.fill, p.stroke⟩) ∧
      (∀ c : LineChart F, c.offset D o
          = ⟨c.axis_stroke, c.margin, c.scale,
              c.polylines.map fun p =>
                ⟨p.points.map fun pt => ⟨D.add pt.x o.x, D.add pt.y o.y⟩, p.fill, p.stroke⟩,
              c.fill, c.stroke⟩)) ∧
      ((∀ c : Circle F, c.center.fixedByZero D →
          Circle.toString D (c.offset D ⟨D.ofInt 0, D.ofInt 0⟩) L = Circle.toString D c L) ∧
        (∀ e : Elipse F, e.center.fixedByZero D →
          Elipse.toString D (e.offset D ⟨D.ofInt 0, D.ofInt 0⟩) L = Elipse.toString D e L) ∧
        (∀ r : Rectangle F, r.edge.fixedByZero D →
          Rectangle.toString D (r.offset D ⟨D.ofInt 0, D.ofInt 0⟩) L
            = Rectangle.toString D r L) ∧
        (∀ l : Line F, l.start_point.fixedByZero D → l.end_point.fixedByZero D →
          Line.toString D (l.offset D ⟨D.ofInt 0, D.ofInt 0⟩) L = Line.toString D l L) ∧
        (∀ t : Text F, t.origin.fixedByZero D →
          Text.toString D (t.offset D ⟨D.ofInt 0, D.ofInt 0⟩) L = Text.toString D t L) ∧
        (∀ p : Polygon F, (∀ pt ∈ p.points, pt.fixedByZero D) →
          Polygon.toString D (p.offset D ⟨D.ofInt 0, D.ofInt 0⟩) L = Polygon.toString D p L) ∧
        (∀ p : Polyline F, (∀ pt ∈ p.points, pt.fixedByZero D) →
          Polyline.toString D (p.offset D ⟨D.ofInt 0, D.ofInt 0⟩) L = Polyline.toString D p L) ∧
        (∀ c : LineChart F, (∀ p ∈ c.polylines, ∀ pt ∈ p.points, pt.fixedByZero D) →
          LineChart.toString D (c.offset D ⟨D.ofInt 0, D.ofInt 0⟩) L
            = LineChart.toString D c L)) := by
  refine ⟨⟨fun c => rfl, fun e => rfl, fun r => rfl, fun l => rfl, fun t => rfl, ?_, ?_, ?_⟩,
    ⟨?_, ?_, ?_, ?_, ?_, ?_, ?_, ?_⟩⟩
  · intro p
    simp only [Polygon.offset, updateLoop_eq_map]
    rfl
  · intro p
    rw [Polyline.offset_points_eq]
    rfl
  · intro c
    rw [LineChart.offset_polylines_eq]
    have hmap : (c.polylines.map fun p => p.offset D o)
        = c.polylines.map fun p =>
            ⟨p.points.map fun pt => ⟨D.add pt.x o.x, D.add pt.y o.y⟩, p.fill, p.stroke⟩ := by
      apply List.map_congr_left
      intro p _
      rw [Polyline.offset_points_eq]
      rfl
    rw [hmap]
  · intro c h
    simp only [Circle.offset, Point.shift_zero D _ h]
  · intro e h
    simp only [Elipse.offset, Point.shift_zero D _ h]
  · intro r h
    simp only [Rectangle.offset, Point.shift_zero D _ h]
  · intro l h1 h2
    simp only [Line.offset, Point.shift_zero D _ h1, Point.shift_zero D _ h2]
  · intro t h
    simp only [Text.offset, Point.shift_zero D _ h]
  · intro p h
    simp only [Polygon.offset, updateLoop_eq_map, map_shift_zero D p.points h]
  · intro p h
    rw [Polyline.offset_points_zero D p h]
  · intro c h
    rw [LineChart.offset_polylines_zero D c h]

/-- Witness for C23 with exact arithmetic: a Polyline of two points offset by
`(5, 7)`, and the same Polyline offset by `(0, 0)`. -/
theorem offset_adds_to_coordinates_witness :
    Polyline.offset exactOps
        ⟨[⟨exactOps.ofInt 0, exactOps.ofInt 0⟩, ⟨exactOps.ofInt 1, exactOps.ofInt 2⟩],
          Fill.default, Stroke.default exactOps⟩ ⟨exactOps.ofInt 5, exactOps.ofInt 7⟩
      = ⟨[⟨exactOps.ofInt 5, exactOps.ofInt 7⟩, ⟨exactOps.ofInt 6, exactOps.ofInt 9⟩],
          Fill.default, Stroke.default exactOps⟩ ∧
      Polyline.toString exactOps
          (Polyline.offset exactOps
            ⟨[⟨exactOps.ofInt 0, exactOps.ofInt 0⟩, ⟨exactOps.ofInt 1, exactOps.ofInt 2⟩],
              Fill.default, Stroke.default exactOps⟩ ⟨exactOps.ofInt 0, exactOps.ofInt 0⟩)
          (Layout.ofDimensions exactOps ⟨exactOps.ofInt 592, exactOps.ofInt 864⟩ .TopLeft)
        = Polyline.toString exactOps
            ⟨[⟨exactOps.ofInt 0, exactOps.ofInt 0⟩, ⟨exactOps.ofInt 1, exactOps.ofInt 2⟩],
              Fill.default, Stroke.default exactOps⟩
            (Layout.ofDimensions exactOps ⟨exactOps.ofInt 592, exactOps.ofInt 864⟩ .TopLeft) := by
  have h := offset_adds_to_coordinates exactOps ⟨exactOps.ofInt 5, exactOps.ofInt 7⟩
    (Layout.ofDimensions exactOps ⟨exactOps.ofInt 592, exactOps.ofInt 864⟩ .TopLeft)
  refine ⟨(h.1.2.2.2.2.2.2.1 _).trans (by decide), h.2.2.2.2.2.2.2.1 _ (by decide)⟩


theorem LineChart.reachable_nonempty {F : Type} (D : DoubleOps F) (c : LineChart F)
    (h : LineChart.Reachable D c) : ∀ p ∈ c.polylines, p.points ≠ [] := by
  induction h with
  | default => intro p hp; simp [LineChart.default] at hp
  | create margin scale axis_stroke => intro p hp; simp [LineChart.create] at hp
  | shl c polyline _ ih =>
    intro p hp
    unfold LineChart.shl at hp
    by_cases he : polyline.points.isEmpty = true
    · rw [if_pos he] at hp
      exact ih p hp
    · rw [if_neg he] at hp
      simp only [List.mem_append, List.mem_singleton] at hp
      rcases hp with hp | hp
      · exact ih p hp
      · subst hp
        intro hnil
        exact he (by simp [hnil])
  | offset c o _ ih =>
    intro p hp
    rw [LineChart.offset_polylines_eq] at hp
    simp only [List.mem_map] at hp
    obtain ⟨q, hq, rfl⟩ := hp
    rw [Polyline.offset_points_eq]
    have := ih q hq
    simpa using this
  | assign a other _ _ _ ih2 =>
    intro p hp
    exact ih2 p hp

theorem getMinPoint_valid {F : Type} (D : DoubleOps F) (points : List (Point F))
    (h : points ≠ []) : ∃ m, (getMinPoint D points).arrow = .value m := by
  cases points with
  | nil => exact absurd rfl h
  | cons p ps => exact ⟨_, rfl⟩

theorem getMaxPoint_valid {F : Type} (D : DoubleOps F) (points : List (Point F))
    (h : points ≠ []) : ∃ m, (getMaxPoint D points).arrow = .value m := by
  cases points with
  | nil => exact absurd rfl h
  | cons p ps => exact ⟨_, rfl⟩

theorem Optional.arrow_of_valid {T : Type} (o : Optional T) (h : o.valid = true) :
    o.arrow = .value o.type := by
  simp [Optional.arrow, h]

theorem getMinPoint_valid_flag {F : Type} (D : DoubleOps F) (points : List (Point F))
    (h : points ≠ []) : (getMinPoint D points).valid = true := by
  cases points with
  | nil => exact absurd rfl h
  | cons p ps => rfl

theorem getMaxPoint_valid_flag {F : Type} (D : DoubleOps F) (points : List (Point F))
    (h : points ≠ []) : (getMaxPoint D points).valid = true := by
  cases points with
  | nil => exact absurd rfl h
  | cons p ps => rfl

theorem LineChart.dimensionsStep_valid {F : Type} (D : DoubleOps F) (p : Polyline F)
    (mm : Optional (Point F) × Optional (Point F)) (hp : p.points ≠ [])
    (h1 : mm.1.valid = true) (h2 : mm.2.valid = true) :
    ∃ r, LineChart.dimensionsStep D p mm = .value r ∧ r.1.valid = true ∧ r.2.valid = true := by
  have hmin := getMinPoint_valid_flag D p.points hp
  have hmax := getMaxPoint_valid_flag D p.points hp
  unfold LineChart.dimensionsStep
  generalize getMinPoint D p.points = omin at hmin ⊢
  generalize getMaxPoint D p.points = omax at hmax ⊢
  obtain ⟨v0, pmin⟩ := omin
  obtain ⟨w0, pmax⟩ := omax
  obtain ⟨⟨v1, t1⟩, ⟨v2, t2⟩⟩ := mm
  simp only at h1 h2 hmin hmax
  subst h1 h2 hmin hmax
  by_cases c1 : D.lt pmin.x t1.x = true <;> by_cases c3 : D.lt t2.x pmax.x = true <;>
    by_cases c2 : D.lt pmin.y t1.y = true <;> by_cases c4 : D.lt t2.y pmax.y = true <;>
    simp [Thrown.bind, Optional.arrow, c1, c2, c3, c4]

theorem LineChart.dimensionsLoop_valid {F : Type} (D : DoubleOps F) :
    ∀ (ps : List (Polyline F)) (mm : Optional (Point F) × Optional (Point F)),
      (∀ p ∈ ps, p.points ≠ []) → mm.1.valid = true → mm.2.valid = true →
      ∃ r, LineChart.dimensionsLoop D ps mm = .value r ∧ r.1.valid = true ∧ r.2.valid = true := by
  intro ps
  induction ps with
  | nil => intro mm _ h1 h2; exact ⟨mm, rfl, h1, h2⟩
  | cons p ps ih =>
    intro mm hps h1 h2
    obtain ⟨r, hr, r1, r2⟩ := LineChart.dimensionsStep_valid D p mm
      (hps p (List.mem_cons_self _ _)) h1 h2
    obtain ⟨r', hr', r1', r2'⟩ := ih r (fun q hq => hps q (List.mem_cons_of_mem _ hq)) r1 r2
    exact ⟨r', by simp only [LineChart.dimensionsLoop, hr, Thrown.bind, hr'], r1', r2'⟩

theorem LineChart.getDimensions_value {F : Type} (D : DoubleOps F) (c : LineChart F)
    (hinv : ∀ p ∈ c.polylines, p.points ≠ []) :
    ∃ d, LineChart.getDimensions D c = .value d ∧ (c.polylines ≠ [] → d.valid = true) := by
  unfold LineChart.getDimensions
  cases hc : c.polylines with
  | nil => exact ⟨_, rfl, fun h => absurd rfl h⟩
  | cons p0 ps =>
    rw [hc] at hinv
    have hp0 := hinv p0 (List.mem_cons_self _ _)
    obtain ⟨m, hm⟩ := getMinPoint_valid D p0.points hp0
    obtain ⟨x, hx⟩ := getMaxPoint_valid D p0.points hp0
    have hv1 := getMinPoint_valid_flag D p0.points hp0
    have hv2 := getMaxPoint_valid_flag D p0.points hp0
    obtain ⟨r, hr, r1, r2⟩ := LineChart.dimensionsLoop_valid D (p0 :: ps)
      (getMinPoint D p0.points, getMaxPoint D p0.points) hinv hv1 hv2
    refine ⟨{ valid := true, type := ⟨D.sub r.2.type.x r.1.type.x, D.sub r.2.type.y r.1.type.y⟩ },
      ?_, fun _ => rfl⟩
    simp only [hr, Thrown.bind, Optional.arrow_of_valid _ r1, Optional.arrow_of_valid _ r2]


theorem LineChart.axisString_value {F : Type} (D : DoubleOps F) (c : LineChart F)
    (layout : Layout F) (hinv : ∀ p ∈ c.polylines, p.points ≠ []) :
    ∃ s, LineChart.axisString D c layout = .value s := by
  obtain ⟨d, hd, _⟩ := LineChart.getDimensions_value D c hinv
  unfold LineChart.axisString
  rw [hd]
  simp only [Thrown.bind]
  cases hv : d.valid with
  | false => exact ⟨_, rfl⟩
  | true =>
    simp only [Bool.not_true, Bool.false_eq_true, if_false, Optional.arrow_of_valid d hv]
    exact ⟨_, rfl⟩

theorem LineChart.verticesLoop_value {F : Type} (D : DoubleOps F) (c : LineChart F)
    (hinv : ∀ p ∈ c.polylines, p.points ≠ []) (hne : c.polylines ≠ []) :
    ∀ (pts : List (Point F)) (vertices : List (Circle F)),
      ∃ vs, LineChart.verticesLoop D c pts vertices = .value vs := by
  obtain ⟨d, hd, hvalid⟩ := LineChart.getDimensions_value D c hinv
  have hv := hvalid hne
  intro pts
  induction pts with
  | nil => intro vertices; exact ⟨vertices, rfl⟩
  | cons pt pts ih =>
    intro vertices
    rw [LineChart.verticesLoop, hd]
    simp only [Thrown.bind, Optional.arrow_of_valid d hv]
    exact ih _

theorem Polyline.toString_length_pos {F : Type} (D : DoubleOps F) (p : Polyline F)
    (layout : Layout F) : 0 < (Polyline.toString D p layout).length := by
  rw [Polyline.toString_eq]
  simp only [String.length_append]
  have : 0 < ("\t<polyline points=\"" : String).length := by decide
  omega

theorem LineChart.polylineToString_value {F : Type} (D : DoubleOps F) (c : LineChart F)
    (polyline : Polyline F) (layout : Layout F)
    (hinv : ∀ p ∈ c.polylines, p.points ≠ []) (hne : c.polylines ≠ []) :
    ∃ s, LineChart.polylineToString D c polyline layout = .value s ∧ 0 < s.length := by
  obtain ⟨vs, hvs⟩ := LineChart.verticesLoop_value D c hinv hne
    (Polyline.offset D polyline ⟨c.margin.width, c.margin.height⟩).points []
  refine ⟨Polyline.toString D
      (Polyline.offset D polyline ⟨c.margin.width, c.margin.height⟩) layout
      ++ vectorToString D vs layout,
    by simp only [LineChart.polylineToString, hvs, Thrown.bind], ?_⟩
  rw [String.length_append]
  have := Polyline.toString_length_pos D
    (Polyline.offset D polyline ⟨c.margin.width, c.margin.height⟩) layout
  omega

theorem LineChart.toStringLoop_value {F : Type} (D : DoubleOps F) (c : LineChart F)
    (layout : Layout F) (hinv : ∀ p ∈ c.polylines, p.points ≠ []) (hne : c.polylines ≠ []) :
    ∀ (ps : List (Polyline F)) (ret : String),
      ∃ s, LineChart.toStringLoop D c layout ps ret = .value s ∧
        ret.length ≤ s.length ∧ (ps ≠ [] → 0 < s.length) := by
  intro ps
  induction ps with
  | nil => intro ret; exact ⟨ret, rfl, Nat.le_refl _, fun h => absurd rfl h⟩
  | cons p ps ih =>
    intro ret
    obtain ⟨s1, h1, hpos⟩ := LineChart.polylineToString_value D c p layout hinv hne
    obtain ⟨s, h2, hle, _⟩ := ih (ret ++ s1)
    rw [String.length_append] at hle
    refine ⟨s, by simp only [LineChart.toStringLoop, h1, Thrown.bind, h2], by omega,
      fun _ => by omega⟩

theorem String.ne_empty_of_length_pos (s : String) (h : 0 < s.length) : s ≠ "" := by
  intro hs
  rw [hs] at h
  exact absurd h (by decide)

/-- C25: every LineChart reachable from its constructors through `operator<<`,
`offset` and `operator=` holds only polylines with at least one point; on such
a chart `getDimensions`, `axisString`, `polylineToString` (on the polylines of
the chart) and `toString` return without the exception of
`optional::operator->`, and `toString` returns the empty string exactly when the
chart holds no polyline. -/
theorem lineChart_toString_never_throws {F : Type} (D : DoubleOps F) (c : LineChart F)
    (layout : Layout F) (hreach : LineChart.Reachable D c) :
    (∀ p ∈ c.polylines, p.points ≠ []) ∧
      (∃ d, LineChart.getDimensions D c = .value d) ∧
      (∃ s, LineChart.axisString D c layout = .value s) ∧
      (∀ p ∈ c.polylines, ∃ s, LineChart.polylineToString D c p layout = .value s) ∧
      (∃ s, LineChart.toString D c layout = .value s ∧ (s = "" ↔ c.polylines = [])) := by
  have hinv := LineChart.reachable_nonempty D c hreach
  obtain ⟨d, hd, _⟩ := LineChart.getDimensions_value D c hinv
  obtain ⟨ax, hax⟩ := LineChart.axisString_value D c layout hinv
  refine ⟨hinv, ⟨d, hd⟩, ⟨ax, hax⟩, ?_, ?_⟩
  · intro p hp
    have hne : c.polylines ≠ [] := List.ne_nil_of_mem hp
    obtain ⟨s, hs, _⟩ := LineChart.polylineToString_value D c p layout hinv hne
    exact ⟨s, hs⟩
  · by_cases hnil : c.polylines = []
    · refine ⟨"", ?_, ⟨fun _ => hnil, fun _ => rfl⟩⟩
      simp [LineChart.toString, hnil]
    · obtain ⟨ret, hret, _, hpos⟩ := LineChart.toStringLoop_value D c layout hinv hnil
        c.polylines ""
      have hemp : c.polylines.isEmpty = false := by
        cases hc : c.polylines with
        | nil => exact absurd hc hnil
        | cons a b => rfl
      refine ⟨ret ++ ax, ?_, ?_⟩
      · simp only [LineChart.toString, hemp, Bool.false_eq_true, if_false, hret, hax,
          Thrown.bind]
      · constructor
        · intro hs
          have hlen : 0 < (ret ++ ax).length := by
            rw [String.length_append]
            have := hpos hnil
            omega
          exact absurd hs (String.ne_empty_of_length_pos _ hlen)
        · intro h
          exact absurd h hnil

/-- Witness for C25 with exact arithmetic: the default chart after an empty
polyline (dropped) and a polyline of two points were added. -/
theorem lineChart_toString_never_throws_witness :
    LineChart.Reachable exactOps
        (((LineChart.default exactOps).shl ⟨[], Fill.default, Stroke.default exactOps⟩).shl
          ⟨[⟨exactOps.ofInt 0, exactOps.ofInt 0⟩, ⟨exactOps.ofInt 30, exactOps.ofInt 60⟩],
            Fill.default, Stroke.default exactOps⟩) ∧
      ∃ s, LineChart.toString exactOps
          (((LineChart.default exactOps).shl ⟨[], Fill.default, Stroke.default exactOps⟩).shl
            ⟨[⟨exactOps.ofInt 0, exactOps.ofInt 0⟩, ⟨exactOps.ofInt 30, exactOps.ofInt 60⟩],
              Fill.default, Stroke.default exactOps⟩)
          (Layout.ofDimensions exactOps ⟨exactOps.ofInt 592, exactOps.ofInt 864⟩ .TopLeft)
        = .value s ∧ s ≠ "" := by
  have hreach : LineChart.Reachable exactOps
      (((LineChart.default exactOps).shl ⟨[], Fill.default, Stroke.default exactOps⟩).shl
        ⟨[⟨exactOps.ofInt 0, exactOps.ofInt 0⟩, ⟨exactOps.ofInt 30, exactOps.ofInt 60⟩],
          Fill.default, Stroke.default exactOps⟩) :=
    LineChart.Reachable.shl _ _ (LineChart.Reachable.shl _ _ LineChart.Reachable.default)
  obtain ⟨_, _, _, _, s, hs, hiff⟩ := lineChart_toString_never_throws exactOps _
    (Layout.ofDimensions exactOps ⟨exactOps.ofInt 592, exactOps.ofInt 864⟩ .TopLeft) hreach
  exact ⟨hreach, s, hs, fun h => absurd (hiff.mp h) (by decide)⟩

end Will
